import Mathlib

/-!
# TracMarket — verification of the contract state machine, command router and rule engine

Shallow embedding of the TracMarket repository core:

* `src/contract.js` — the Autobase `apply` handler (state machine over the keyed view),
  embedded as `step` / `applyNodes` over `MState`.
* the command router (`TracMarketProtocol`) — `routerRuleSet` embeds `_ruleSet`.
* `src/market.js` — the agent rule engine: `evalAcceptRules` embeds `_evalAcceptRules`,
  `checkRateLimit` embeds `_checkRateLimit`.

Modelling conventions:
* JS numbers used as money amounts are modelled as `ℚ` (exact rationals); timestamps as `Int`.
* The view (a Hyperbee keyed store with string keys and JSON string values) is an
  association list `List (String × StoredVal)` where `vput` prepends (upsert) and
  `vget` returns the most recent binding.
* Stored JSON objects are typed (`StoredVal`): the constructors carry exactly the fields
  the contract ever writes.  Status fields are strings in JS; the inductives
  `LStatus`/`OStatus`/`XStatus` enumerate exactly the string constants the code assigns.
* A log entry is the decoded JSON of `node.value`.  The typed constructors model objects
  whose fields are present with the types the router always supplies; `Entry.malformed`
  models a value on which `JSON.parse` throws (skipped by `apply`), and
  `Entry.nullValue` models the value `"null"`, which parses successfully to `null` and then
  makes `entry.op` throw a `TypeError` (uncaught — the `try` only wraps `JSON.parse`).
-/

/-- JS `a || b` for string-valued fields (`''` and `undefined` are falsy;
an absent optional string field is modelled as `""`). -/
def jsOr (a b : String) : String := if a = "" then b else a

/-- Listing `status` values assigned by contract.js: `'active'`, `'removed'`, `'sold'`. -/
inductive LStatus where
  | active | removed | sold
deriving DecidableEq, Repr

/-- Offer `status` values: `'pending'`, `'accepted'`, `'declined'`; additionally `'sold'`,
which the `offer_accept` listing-sold write can stamp onto an offer record whose storage
key coincides with `entry.listingId`. -/
inductive OStatus where
  | pending | accepted | declined | sold
deriving DecidableEq, Repr

/-- `status` values that deal and rule records can acquire through the untyped
`listing_remove` / listing-sold writes: `'removed'`, `'sold'`.  Freshly created deals and
rules carry no `status` field (`none`). -/
inductive XStatus where
  | removed | sold
deriving DecidableEq, Repr

/-- One element of an offer's `history` array: `{ amount, by, at }`. -/
structure HistEntry where
  amount : ℚ
  by_ : String
  at_ : Int
deriving DecidableEq, Repr

/-- A listing record as written by contract.js (`listing_post` and later mutations). -/
structure Listing where
  id : String
  title : String
  desc : String
  price : ℚ
  currency : String
  category : String
  tags : String
  seller : String
  createdAt : Int
  status : LStatus
  updatedAt : Option Int := none
  removedAt : Option Int := none
  soldAt : Option Int := none
  dealId : Option String := none
deriving DecidableEq, Repr

/-- An offer record (`offer_send` and later mutations). -/
structure Offer where
  id : String
  listingId : String
  buyer : String
  amount : ℚ
  note : String
  status : OStatus
  createdAt : Int
  history : List HistEntry
  lastUpdated : Option Int := none
  acceptedAt : Option Int := none
  acceptedBy : Option String := none
  declinedAt : Option Int := none
  declinedBy : Option String := none
  soldAt : Option Int := none
  dealId : Option String := none
deriving DecidableEq, Repr

/-- A deal record.  The fields after `closedAt` are absent at creation (`none`); they can
appear later because `listing_update`/`listing_remove`/the listing-sold write operate on
whatever JSON object sits at the targeted key, including a deal. -/
structure Deal where
  id : String
  listingId : String
  offerId : String
  listingTitle : String
  buyer : String
  seller : String
  finalPrice : ℚ
  currency : String
  closedAt : Int
  price : Option ℚ := none
  desc : Option String := none
  updatedAt : Option Int := none
  status : Option XStatus := none
  removedAt : Option Int := none
  soldAt : Option Int := none
  dealId : Option String := none
deriving DecidableEq, Repr

/-- Rule parameters.  The router writes `{category?, max_price}` for `auto_buy`,
`{listingId?, min_price}` for `auto_accept`, `{listingId?, ratio}` for `auto_counter`;
absent fields are `none`. -/
structure RParams where
  category : Option String := none
  max_price : Option ℚ := none
  listingId : Option String := none
  min_price : Option ℚ := none
  ratio : Option ℚ := none
deriving DecidableEq, Repr

/-- An agent-rule record (`rule_set` / `rule_delete`; the trailing fields can be stamped
by the untyped listing-sold write). -/
structure MRule where
  id : String
  owner : String
  type : String
  params : RParams
  createdAt : Int
  deleted : Bool := false
  status : Option XStatus := none
  soldAt : Option Int := none
  dealId : Option String := none
deriving DecidableEq, Repr

/-- A value stored in the Hyperbee view (the JSON.parse of the stored string). -/
inductive StoredVal where
  | listing (l : Listing)
  | offer (o : Offer)
  | deal (d : Deal)
  | rule (r : MRule)
deriving DecidableEq, Repr

/-- The keyed view: association list, newest binding first. -/
abbrev View := List (String × StoredVal)

/-- `view.put(key, value)` — upsert; the newest binding shadows older ones. -/
def vput (v : View) (k : String) (val : StoredVal) : View := (k, val) :: v

/-- `view.get(key)` — most recent binding wins. -/
def vget : View → String → Option StoredVal
  | [], _ => none
  | (k', val) :: rest, k => if k = k' then some val else vget rest k

/-- The replica's mutable state: the module-level sequence counters
(`listingSeq`, `offerSeq`, `dealSeq`, `ruleSeq` in contract.js — process-lifetime
variables, not part of the committed view) together with the view. -/
structure MState where
  listingSeq : Nat
  offerSeq : Nat
  dealSeq : Nat
  ruleSeq : Nat
  view : View
deriving DecidableEq, Repr

/-- Fresh process, empty view: all counters start at 0. -/
def initState : MState := ⟨0, 0, 0, 0, []⟩

/-- `String(seq).padStart(3, '0')`. -/
def padStart3 (str : String) : String :=
  ⟨List.replicate (3 - str.length) '0' ++ str.data⟩

/-- contract.js `nextId(prefix, seq)` = `` `${prefix}-${String(seq).padStart(3,'0')}` ``. -/
def nextId (p : String) (seq : Nat) : String :=
  p ++ "-" ++ padStart3 (Nat.repr seq)

/-- Key of the listing with sequence number `n`: `LST-###`. -/
def lstKey (n : Nat) : String := nextId "LST" n

/-- Key of an offer: `` `${listingId}:${offerId}` `` with `offerId = OFR-###`. -/
def offerKey (listingId : String) (n : Nat) : String :=
  listingId ++ ":" ++ nextId "OFR" n

/-- Key of a deal: `DEAL-###`. -/
def dealKey (n : Nat) : String := nextId "DEAL" n

/-- Key of a rule: `` `rule:${owner}:${ruleId}` `` with `ruleId = RULE-###`. -/
def ruleKey (owner : String) (n : Nat) : String :=
  "rule:" ++ owner ++ ":" ++ nextId "RULE" n

/-- A decoded log entry (`JSON.parse(node.value.toString())`).  The first nine
constructors carry the fields each `apply` case reads; `malformed` is a value on which
`JSON.parse` throws; `nullValue` is the JSON value `null` (parse succeeds, `.op` throws). -/
inductive Entry where
  | listing_post (title desc : String) (price : ℚ)
      (currency category tags seller : String) (ts : Int)
  | listing_update (id : String) (price : Option ℚ) (desc : Option String)
      (seller : String) (ts : Int)
  | listing_remove (id seller : String) (ts : Int)
  | offer_send (listingId buyer : String) (amount : ℚ) (note : String) (ts : Int)
  | offer_counter (listingId offerId : String) (amount : ℚ) (by_ : String) (ts : Int)
  | offer_accept (listingId offerId by_ seller : String) (ts : Int)
  | offer_decline (listingId offerId by_ : String) (ts : Int)
  | rule_set (owner ruleType : String) (params : RParams) (ts : Int)
  | rule_delete (owner ruleId : String) (ts : Int)
  | malformed
  | nullValue
deriving DecidableEq, Repr

/-- JS property read `x.seller` on a parsed stored object (`none` = `undefined`):
listings and deals carry a `seller` field, offers and rules do not. -/
def sellerOf : StoredVal → Option String
  | .listing l => some l.seller
  | .deal d => some d.seller
  | .offer _ => none
  | .rule _ => none

/-- JS property read `x.owner` (`none` = `undefined`): only rules carry `owner`. -/
def ownerOf : StoredVal → Option String
  | .rule r => some r.owner
  | _ => none

/-- `listing.title || ''` where `listing` is whatever was parsed from the key
`entry.listingId` (or `{}` if absent): only listings carry `title`. -/
def soldTitleOf : Option StoredVal → String
  | some (.listing l) => jsOr l.title ""
  | _ => ""

/-- `listing.seller || entry.seller`: listings and deals carry `seller`. -/
def soldSellerOf (st : Option StoredVal) (fallback : String) : String :=
  match st with
  | some (.listing l) => jsOr l.seller fallback
  | some (.deal d) => jsOr d.seller fallback
  | _ => fallback

/-- `listing.currency || 'TNK'`: listings and deals carry `currency`. -/
def soldCurrencyOf : Option StoredVal → String
  | some (.listing l) => jsOr l.currency "TNK"
  | some (.deal d) => jsOr d.currency "TNK"
  | _ => "TNK"

/-- The "mark listing sold" write of `offer_accept`
(`listing.status = 'sold'; listing.soldAt = entry.ts; listing.dealId = dealId`) applied to
whatever object was parsed from the key `entry.listingId`. -/
def markSold (ts : Int) (did : String) : StoredVal → StoredVal
  | .listing l => .listing { l with status := .sold, soldAt := some ts, dealId := some did }
  | .offer o => .offer { o with status := .sold, soldAt := some ts, dealId := some did }
  | .deal d => .deal { d with status := some .sold, soldAt := some ts, dealId := some did }
  | .rule r => .rule { r with status := some .sold, soldAt := some ts, dealId := some did }

/-- The offer record after the `offer_accept` mutation
(`offer.status='accepted'; offer.acceptedAt=entry.ts; offer.acceptedBy=entry.by`). -/
def acceptedOffer (o : Offer) (by_ : String) (ts : Int) : Offer :=
  { o with status := .accepted, acceptedAt := some ts, acceptedBy := some by_ }

/-- The deal record `offer_accept` creates.  `v1` is the view after the offer write
(the code reads `entry.listingId` only after `view.put(key, offer)`). -/
def newDeal (v1 : View) (listingId offerId : String) (o : Offer) (seller : String)
    (nD : Nat) (ts : Int) : Deal :=
  { id := nextId "DEAL" nD
    listingId := listingId
    offerId := offerId
    listingTitle := soldTitleOf (vget v1 listingId)
    buyer := o.buyer
    seller := soldSellerOf (vget v1 listingId) seller
    finalPrice := o.amount
    currency := soldCurrencyOf (vget v1 listingId)
    closedAt := ts }

/-- The final conditional write of `offer_accept`
(`if (listingRaw) { ... view.put(entry.listingId, listing) }`):
mark whatever object sits at `entry.listingId` sold, if the key is occupied. -/
def soldWrite (v2 : View) (listingId : String) (stq : Option StoredVal) (ts : Int)
    (did : String) : View :=
  match stq with
  | some st => vput v2 listingId (markSold ts did st)
  | none => v2

/-- One iteration of the `for (const node of nodes)` loop in contract.js `apply`,
for an entry that decoded to a non-`null` value.  Each case is the direct translation of
the corresponding `switch` case; an unmatched guard (`break` before any `view.put`)
returns the state unchanged.  (`nullValue` never reaches `step`: `applyNodes` raises
there, mirroring the uncaught `TypeError`.) -/
def step (e : Entry) (s : MState) : MState :=
  match e with
  | .listing_post title desc price currency category tags seller ts =>
    let seq' := s.listingSeq + 1
    let id := nextId "LST" seq'
    { s with
      listingSeq := seq'
      view := vput s.view id (.listing
        { id := id
          title := title
          desc := jsOr desc ""
          price := price
          currency := jsOr currency "TNK"
          category := jsOr category "general"
          tags := jsOr tags ""
          seller := seller
          createdAt := ts
          status := .active }) }
  | .listing_update id price desc seller ts =>
    match vget s.view id with
    | none => s
    | some stored =>
      match stored with
      | .listing l =>
        if l.seller = seller then
          { s with view := vput s.view id (.listing
              { l with
                price := (match price with | some p => p | none => l.price)
                desc := (match desc with | some d => d | none => l.desc)
                updatedAt := some ts }) }
        else s
      | .deal d =>
        if d.seller = seller then
          { s with view := vput s.view id (.deal
              { d with
                price := (match price with | some p => some p | none => d.price)
                desc := (match desc with | some dd => some dd | none => d.desc)
                updatedAt := some ts }) }
        else s
      | _ => s  -- offers and rules have no `seller` field: `undefined !== entry.seller`
  | .listing_remove id seller ts =>
    match vget s.view id with
    | none => s
    | some stored =>
      match stored with
      | .listing l =>
        if l.seller = seller then
          { s with view := vput s.view id (.listing
              { l with status := .removed, removedAt := some ts }) }
        else s
      | .deal d =>
        if d.seller = seller then
          { s with view := vput s.view id (.deal
              { d with status := some .removed, removedAt := some ts }) }
        else s
      | _ => s
  | .offer_send listingId buyer amount note ts =>
    let seq' := s.offerSeq + 1
    let offerId := nextId "OFR" seq'
    let key := listingId ++ ":" ++ offerId
    { s with
      offerSeq := seq'
      view := vput s.view key (.offer
        { id := offerId
          listingId := listingId
          buyer := buyer
          amount := amount
          note := jsOr note ""
          status := .pending
          createdAt := ts
          history := [⟨amount, buyer, ts⟩] }) }
  | .offer_counter listingId offerId amount by_ ts =>
    let key := listingId ++ ":" ++ offerId
    match vget s.view key with
    | some (.offer o) =>
      if o.status = .pending then
        { s with view := vput s.view key (.offer
            { o with
              amount := amount
              status := .pending
              history := o.history ++ [⟨amount, by_, ts⟩]
              lastUpdated := some ts }) }
      else s
    | _ => s  -- only offer records ever carry status `'pending'`
  | .offer_accept listingId offerId by_ seller ts =>
    match vget s.view (listingId ++ ":" ++ offerId) with
    | some (.offer o) =>
      if o.status = .pending then
        { s with
          dealSeq := s.dealSeq + 1
          view :=
            soldWrite
              (vput (vput s.view (listingId ++ ":" ++ offerId)
                  (.offer (acceptedOffer o by_ ts)))
                (nextId "DEAL" (s.dealSeq + 1))
                (.deal (newDeal
                  (vput s.view (listingId ++ ":" ++ offerId)
                    (.offer (acceptedOffer o by_ ts)))
                  listingId offerId o seller (s.dealSeq + 1) ts)))
              listingId
              (vget (vput s.view (listingId ++ ":" ++ offerId)
                (.offer (acceptedOffer o by_ ts))) listingId)
              ts (nextId "DEAL" (s.dealSeq + 1)) }
      else s
    | _ => s
  | .offer_decline listingId offerId by_ ts =>
    let key := listingId ++ ":" ++ offerId
    match vget s.view key with
    | some (.offer o) =>
      if o.status = .pending then
        { s with view := vput s.view key (.offer
            { o with status := .declined, declinedAt := some ts, declinedBy := some by_ }) }
      else s
    | _ => s
  | .rule_set owner ruleType params ts =>
    let seq' := s.ruleSeq + 1
    let ruleId := nextId "RULE" seq'
    let rkey := "rule:" ++ owner ++ ":" ++ ruleId
    { s with
      ruleSeq := seq'
      view := vput s.view rkey (.rule
        { id := ruleId
          owner := owner
          type := ruleType
          params := params
          createdAt := ts }) }
  | .rule_delete owner ruleId _ts =>
    let rkey := "rule:" ++ owner ++ ":" ++ ruleId
    match vget s.view rkey with
    | some (.rule r) =>
      if r.owner = owner then
        { s with view := vput s.view rkey (.rule { r with deleted := true }) }
      else s
    | _ => s  -- non-rule values have no `owner` field
  | .malformed => s    -- JSON.parse threw: `catch { continue }`
  | .nullValue => s    -- unreachable from applyNodes, which raises first

/-- contract.js `apply(nodes, view)`: the loop over linearized nodes.  A value on which
`JSON.parse` throws is skipped (`continue`); a value that parses to `null` makes the
uncaught `entry.op` property read throw a `TypeError`, aborting the whole batch
(`Except.error`); every other entry is processed by `step`. -/
def applyNodes : List Entry → MState → Except String MState
  | [], s => .ok s
  | Entry.nullValue :: _, _ =>
    .error "TypeError: Cannot read properties of null (reading op)"
  | e :: rest, s => applyNodes rest (step e s)

/-! ## Command router (`TracMarketProtocol`), the parts the claims need -/

/-- A router reply: `{ok:true, message?}` or `{ok:false, error}`. -/
structure RReply where
  ok : Bool
  text : String
deriving DecidableEq, Repr

/-- The fields of a `rule_set` command that `_ruleSet` destructures
(`max_deals_per_hour` is destructured but never used).  `none` = field absent. -/
structure RuleSetCmd where
  category : Option String := none
  listing_id : Option String := none
  auto_buy_below : Option ℚ := none
  auto_accept_above : Option ℚ := none
  auto_counter_ratio : Option ℚ := none
deriving DecidableEq, Repr

/-- `TracMarketProtocol._ruleSet(cmd)`: an `if / else if / else if / else` chain on
which parameter is `!== undefined`, in the order `auto_buy_below`, `auto_accept_above`,
`auto_counter_ratio`.  Returns the reply together with the entry appended to the log
(`none` = nothing appended).  `self` is `this.address`, `ts` is `Date.now()`. -/
def routerRuleSet (self : String) (ts : Int) (cmd : RuleSetCmd) :
    RReply × Option Entry :=
  match cmd.auto_buy_below with
  | some v =>
    (⟨true, "Rule set: auto_buy"⟩,
     some (.rule_set self "auto_buy"
       { category := cmd.category, max_price := some v } ts))
  | none =>
    match cmd.auto_accept_above with
    | some v =>
      (⟨true, "Rule set: auto_accept"⟩,
       some (.rule_set self "auto_accept"
         { listingId := cmd.listing_id, min_price := some v } ts))
    | none =>
      match cmd.auto_counter_ratio with
      | some v =>
        (⟨true, "Rule set: auto_counter"⟩,
         some (.rule_set self "auto_counter"
           { listingId := cmd.listing_id, ratio := some v } ts))
      | none =>
        (⟨false, "rule_set: specify auto_buy_below, auto_accept_above, or auto_counter_ratio"⟩,
         none)

/-! ## Rule engine (`src/market.js`), the parts the claims need -/

/-- The command the rule engine submits after evaluating accept rules:
`offer_accept` or `offer_counter` on the listing's negotiation channel.
(`OFFER_SENT` broadcasts carry no `offerId` field, hence `Option String`.) -/
inductive AgentAct where
  | acceptCmd (listing_id : String) (offer_id : Option String)
  | counterCmd (listing_id : String) (offer_id : Option String) (amount : ℚ)
deriving DecidableEq, Repr

/-- JS property read `data.price` on the object a `listing_get` returns
(`_listingGet` returns whatever JSON object sits at the key — no type check). -/
def jsPriceOf : StoredVal → Option ℚ
  | .listing l => some l.price
  | .deal d => d.price
  | _ => none

/-- `Math.floor` on ℚ (`Rat.floor` is the integer floor of a rational). -/
def mathFloor (q : ℚ) : ℚ := (q.floor : ℚ)

/-- `Market._evalAcceptRules(listingId, offerMsg)`: walk the owner's rules in list
order; the first rule that acts returns.
* `auto_accept` scoped to this listing: act (accept) only when
  `offerMsg.amount >= rule.params.min_price`; otherwise fall through to later rules
  (no `return` on the false branch).  A missing `min_price` compares as `undefined`
  (false), so the rule never fires.
* `auto_counter` scoped to this listing: look the listing up; if the lookup fails
  (`!listingResult.ok`) continue; otherwise compute
  `floor = Math.floor(price * ratio)` and return: counter at `floor` when
  `amount < floor`, else accept.  When `price` or `ratio` is `undefined` the product is
  `NaN`, `amount < NaN` is false, and the accept branch runs. -/
def evalAcceptRules (rules : List MRule) (s : MState) (listingId : String)
    (amount : ℚ) (offerId : Option String) : Option AgentAct :=
  match rules with
  | [] => none
  | r :: rest =>
    if r.type = "auto_accept" ∧ r.params.listingId = some listingId then
      match r.params.min_price with
      | some m =>
        if m ≤ amount then some (.acceptCmd listingId offerId)
        else evalAcceptRules rest s listingId amount offerId
      | none => evalAcceptRules rest s listingId amount offerId
    else if r.type = "auto_counter" ∧ r.params.listingId = some listingId then
      match vget s.view listingId with
      | none => evalAcceptRules rest s listingId amount offerId
      | some stored =>
        match jsPriceOf stored, r.params.ratio with
        | some price, some ratio =>
          let floor := mathFloor (price * ratio)
          if amount < floor then some (.counterCmd listingId offerId floor)
          else some (.acceptCmd listingId offerId)
        | _, _ => some (.acceptCmd listingId offerId)
    else evalAcceptRules rest s listingId amount offerId

/-- `DEAL_RATE_WINDOW_MS = 60 * 60 * 1000`. -/
def DEAL_RATE_WINDOW_MS : Int := 60 * 60 * 1000

/-- `Market._checkRateLimit(maxPerHour)`: prune timestamps older than the window
(`now - t < DEAL_RATE_WINDOW_MS` keeps), refuse when the pruned list has reached
capacity (no timestamp recorded), otherwise record `now` and accept.
Returns (accepted?, new `this.dealTimestamps`). -/
def checkRateLimit (maxPerHour : Nat) (dealTimestamps : List Int) (now : Int) :
    Bool × List Int :=
  let kept := dealTimestamps.filter (fun t => now - t < DEAL_RATE_WINDOW_MS)
  if maxPerHour ≤ kept.length then (false, kept)
  else (true, kept ++ [now])

/-! ## Decimal strings: lemmas about `Nat.repr` and the padded ids

`nextId` builds keys from `String(seq).padStart(3,'0')`; the freshness arguments below
need that these decimal substrings consist of digits, contain no leading zero (except
for `0` itself), and determine the number. -/

/-- Structural-recursion presentation of the decimal digits of `n`
(least significant digit last), used to reason about `Nat.repr`. -/
def natDigits (n : Nat) : List Char :=
  if _h : n < 10 then [Nat.digitChar n]
  else natDigits (n / 10) ++ [Nat.digitChar (n % 10)]
decreasing_by exact Nat.div_lt_self (by omega) (by omega)

theorem toDigitsCore_eq (n : Nat) : ∀ (fuel : Nat) (ds : List Char), n < fuel →
    Nat.toDigitsCore 10 fuel n ds = natDigits n ++ ds := by
  induction n using Nat.strong_induction_on with
  | _ n ih =>
    intro fuel ds hf
    match fuel, hf with
    | fuel + 1, _ =>
      rw [Nat.toDigitsCore, natDigits]
      by_cases h10 : n < 10
      · have hq : n / 10 = 0 := Nat.div_eq_of_lt h10
        simp only [hq, if_pos rfl, dif_pos h10, Nat.mod_eq_of_lt h10]
        rfl
      · have hq : n / 10 ≠ 0 := by
          intro h
          exact h10 (by omega : n < 10)
        rw [if_neg ?_, dif_neg h10]
        · rw [ih (n / 10) (Nat.div_lt_self (by omega) (by omega)) fuel (Nat.digitChar (n % 10) :: ds) (by
            have h1 : n / 10 < n := Nat.div_lt_self (by omega) (by omega)
            omega)]
          simp
        · exact hq

theorem repr_data (n : Nat) : (Nat.repr n).data = natDigits n := by
  show (List.asString (Nat.toDigits 10 n)).data = natDigits n
  rw [Nat.toDigits, toDigitsCore_eq n (n + 1) [] (Nat.lt_succ_self n), List.append_nil]
  rfl

theorem digitChar_isDigit : ∀ d : Nat, d < 10 → (Nat.digitChar d).isDigit = true := by
  decide

theorem digitChar_inj_lt : ∀ a : Nat, a < 10 → ∀ b : Nat, b < 10 →
    Nat.digitChar a = Nat.digitChar b → a = b := by
  decide

theorem natDigits_isDigit (n : Nat) : ∀ c ∈ natDigits n, c.isDigit = true := by
  induction n using Nat.strong_induction_on with
  | _ n ih =>
    intro c hc
    rw [natDigits] at hc
    by_cases h10 : n < 10
    · rw [dif_pos h10] at hc
      simp only [List.mem_singleton] at hc
      exact hc ▸ digitChar_isDigit n h10
    · rw [dif_neg h10] at hc
      rcases List.mem_append.mp hc with h | h
      · exact ih (n / 10) (Nat.div_lt_self (by omega) (by omega)) c h
      · simp only [List.mem_singleton] at h
        exact h ▸ digitChar_isDigit (n % 10) (Nat.mod_lt n (by omega))

theorem natDigits_ne_nil (n : Nat) : natDigits n ≠ [] := by
  rw [natDigits]
  by_cases h10 : n < 10
  · rw [dif_pos h10]; simp
  · rw [dif_neg h10]; simp

theorem natDigits_eq (n : Nat) : natDigits n =
    if n < 10 then [Nat.digitChar n]
    else natDigits (n / 10) ++ [Nat.digitChar (n % 10)] := by
  rw [natDigits]
  by_cases h : n < 10
  · rw [dif_pos h, if_pos h]
  · rw [dif_neg h, if_neg h]

theorem natDigits_head_ne_zero (n : Nat) (hn : n ≠ 0) :
    ∀ c cs, natDigits n = c :: cs → c ≠ '0' := by
  induction n using Nat.strong_induction_on with
  | _ n ih =>
    intro c cs heq hc0
    rw [natDigits_eq n] at heq
    by_cases h10 : n < 10
    · rw [if_pos h10] at heq
      simp only [List.cons.injEq] at heq
      have hn0 : n = 0 := by
        apply digitChar_inj_lt n h10 0 (by omega)
        rw [heq.1, hc0]
        rfl
      exact hn hn0
    · rw [if_neg h10] at heq
      obtain ⟨d, ds, hds⟩ : ∃ d ds, natDigits (n / 10) = d :: ds := by
        cases h : natDigits (n / 10) with
        | nil => exact absurd h (natDigits_ne_nil _)
        | cons d ds => exact ⟨d, ds, rfl⟩
      rw [hds] at heq
      simp only [List.cons_append, List.cons.injEq] at heq
      exact ih (n / 10) (Nat.div_lt_self (by omega) (by omega))
        (by intro h; exact h10 (by omega)) d ds hds (heq.1 ▸ hc0)

theorem natDigits_inj : ∀ a b : Nat, natDigits a = natDigits b → a = b := by
  intro a
  induction a using Nat.strong_induction_on with
  | _ a ih =>
    intro b heq
    rw [natDigits_eq a, natDigits_eq b] at heq
    by_cases ha : a < 10 <;> by_cases hb : b < 10
    · rw [if_pos ha, if_pos hb] at heq
      simp only [List.cons.injEq] at heq
      exact digitChar_inj_lt a ha b hb heq.1
    · rw [if_pos ha, if_neg hb] at heq
      have hlen := congrArg List.length heq
      simp only [List.length_singleton, List.length_append] at hlen
      cases h : natDigits (b / 10) with
      | nil => exact absurd h (natDigits_ne_nil _)
      | cons d ds => rw [h] at hlen; simp at hlen
    · rw [if_neg ha, if_pos hb] at heq
      have hlen := congrArg List.length heq
      simp only [List.length_singleton, List.length_append] at hlen
      cases h : natDigits (a / 10) with
      | nil => exact absurd h (natDigits_ne_nil _)
      | cons d ds => rw [h] at hlen; simp at hlen
    · rw [if_neg ha, if_neg hb] at heq
      have h2 := List.append_inj' heq (by simp)
      have hdiv := ih (a / 10) (Nat.div_lt_self (by omega) (by omega)) (b / 10) h2.1
      have hmod : a % 10 = b % 10 := by
        have := h2.2
        simp only [List.cons.injEq] at this
        exact digitChar_inj_lt (a % 10) (Nat.mod_lt a (by omega)) (b % 10)
          (Nat.mod_lt b (by omega)) this.1
      omega

/-- The char list of `String(n).padStart(3,'0')`. -/
def padN (n : Nat) : List Char :=
  List.replicate (3 - (natDigits n).length) '0' ++ natDigits n

theorem padStart3_repr_data (n : Nat) :
    (padStart3 (Nat.repr n)).data = padN n := by
  show List.replicate (3 - (Nat.repr n).length) '0' ++ (Nat.repr n).data = padN n
  have hl : (Nat.repr n).length = (natDigits n).length := by
    show (Nat.repr n).data.length = _
    rw [repr_data]
  rw [hl, repr_data, padN]

theorem padN_isDigit (n : Nat) : ∀ c ∈ padN n, c.isDigit = true := by
  intro c hc
  rcases List.mem_append.mp hc with h | h
  · rw [List.eq_of_mem_replicate h]
    decide
  · exact natDigits_isDigit n c h

theorem natDigits_zero : natDigits 0 = ['0'] := by
  rw [natDigits_eq 0]
  rfl

theorem padN_inj (a b : Nat) (h : padN a = padN b) : a = b := by
  have aux : ∀ x y : Nat, 3 - (natDigits x).length < 3 - (natDigits y).length →
      padN x = padN y → False := by
    intro x y hij heq
    unfold padN at heq
    have hrep : List.replicate (3 - (natDigits y).length) '0' =
        List.replicate (3 - (natDigits x).length) '0' ++
        List.replicate ((3 - (natDigits y).length) - (3 - (natDigits x).length)) '0' := by
      rw [List.append_replicate_replicate]
      congr 1
      omega
    rw [hrep, List.append_assoc] at heq
    have hx : natDigits x =
        List.replicate ((3 - (natDigits y).length) - (3 - (natDigits x).length)) '0' ++
          natDigits y :=
      List.append_inj_right heq (by simp)
    obtain ⟨m, hm⟩ : ∃ m, (3 - (natDigits y).length) - (3 - (natDigits x).length) = m + 1 :=
      ⟨(3 - (natDigits y).length) - (3 - (natDigits x).length) - 1, by omega⟩
    rw [hm] at hx
    have hx0 : x = 0 := by
      by_contra hx0
      exact natDigits_head_ne_zero x hx0 '0' _
        (by simpa [List.replicate_succ] using hx) rfl
    rw [hx0, natDigits_zero] at hx
    have hlen := congrArg List.length hx
    have hy := List.length_pos.mpr (natDigits_ne_nil y)
    simp [List.length_replicate] at hlen
    omega
  rcases Nat.lt_trichotomy (3 - (natDigits a).length) (3 - (natDigits b).length)
    with hlt | heq | hgt
  · exact absurd h (fun hh => aux a b hlt hh)
  · unfold padN at h
    have := List.append_inj_right h (by simp [heq])
    exact natDigits_inj a b this
  · exact absurd h.symm (fun hh => aux b a hgt hh)

/-- Splitting a char list at a non-digit character followed only by a digit block is
unambiguous (read right-to-left: the digit suffix and its delimiter are determined). -/
theorem digit_split : ∀ (P1 : List Char), (∀ c ∈ P1, c.isDigit = true) →
    ∀ (P2 : List Char), (∀ c ∈ P2, c.isDigit = true) →
    ∀ (c1 c2 : Char), c1.isDigit = false → c2.isDigit = false →
    ∀ (R1 R2 : List Char), P1 ++ c1 :: R1 = P2 ++ c2 :: R2 →
    P1 = P2 ∧ c1 = c2 ∧ R1 = R2 := by
  intro P1
  induction P1 with
  | nil =>
    intro _ P2 h2 c1 c2 hc1 hc2 R1 R2 heq
    cases P2 with
    | nil => simpa using heq
    | cons d P2' =>
      simp only [List.nil_append, List.cons_append, List.cons.injEq] at heq
      have hd := h2 d (by simp)
      rw [← heq.1, hc1] at hd
      exact absurd hd (by simp)
  | cons d P1' ih =>
    intro h1 P2 h2 c1 c2 hc1 hc2 R1 R2 heq
    cases P2 with
    | nil =>
      simp only [List.nil_append, List.cons_append, List.cons.injEq] at heq
      have hd := h1 d (by simp)
      rw [heq.1, hc2] at hd
      exact absurd hd (by simp)
    | cons d2 P2' =>
      simp only [List.cons_append, List.cons.injEq] at heq
      obtain ⟨hd, htail⟩ := heq
      obtain ⟨hP, hc, hR⟩ := ih (fun c hc => h1 c (by simp [hc])) P2'
        (fun c hc => h2 c (by simp [hc])) c1 c2 hc1 hc2 R1 R2 htail
      exact ⟨by rw [hd, hP], hc, hR⟩

/-- The same splitting read from the right end of the list: a trailing digit block and
the non-digit character before it are determined. -/
theorem digit_split_suffix (A1 A2 P1 P2 : List Char) (c1 c2 : Char)
    (h1 : ∀ c ∈ P1, c.isDigit = true) (h2 : ∀ c ∈ P2, c.isDigit = true)
    (hc1 : c1.isDigit = false) (hc2 : c2.isDigit = false)
    (heq : A1 ++ c1 :: P1 = A2 ++ c2 :: P2) : A1 = A2 ∧ c1 = c2 ∧ P1 = P2 := by
  have hrev := congrArg List.reverse heq
  simp only [List.reverse_append, List.reverse_cons, List.append_assoc,
    List.singleton_append] at hrev
  obtain ⟨hP, hc, hA⟩ := digit_split P1.reverse
    (fun c hc => h1 c (List.mem_reverse.mp hc)) P2.reverse
    (fun c hc => h2 c (List.mem_reverse.mp hc)) c1 c2 hc1 hc2
    A1.reverse A2.reverse hrev
  refine ⟨List.reverse_injective hA, hc, List.reverse_injective hP⟩

theorem offerKey_data (l : String) (n : Nat) :
    (offerKey l n).data = (l.data ++ [':', 'O', 'F', 'R']) ++ '-' :: padN n := by
  show (l ++ ":" ++ ("OFR" ++ "-" ++ padStart3 (Nat.repr n))).data = _
  simp only [String.data_append, padStart3_repr_data]
  show l.data ++ [':'] ++ (['O', 'F', 'R'] ++ (['-'] ++ padN n)) = _
  simp

theorem dealKey_data (n : Nat) :
    (dealKey n).data = ['D', 'E', 'A', 'L', '-'] ++ padN n := by
  show ("DEAL" ++ "-" ++ padStart3 (Nat.repr n)).data = _
  simp only [String.data_append, padStart3_repr_data]
  show ['D', 'E', 'A', 'L'] ++ (['-'] ++ padN n) = _
  simp

theorem lstKey_data (n : Nat) :
    (lstKey n).data = ['L', 'S', 'T', '-'] ++ padN n := by
  show ("LST" ++ "-" ++ padStart3 (Nat.repr n)).data = _
  simp only [String.data_append, padStart3_repr_data]
  show ['L', 'S', 'T'] ++ (['-'] ++ padN n) = _
  simp

theorem ruleKey_data (o : String) (m : Nat) :
    (ruleKey o m).data =
      ((['r', 'u', 'l', 'e', ':'] ++ o.data) ++ [':', 'R', 'U', 'L', 'E']) ++
        '-' :: padN m := by
  show ("rule:" ++ o ++ ":" ++ ("RULE" ++ "-" ++ padStart3 (Nat.repr m))).data = _
  simp only [String.data_append, padStart3_repr_data]
  show ['r', 'u', 'l', 'e', ':'] ++ o.data ++ [':'] ++
    (['R', 'U', 'L', 'E'] ++ (['-'] ++ padN m)) = _
  simp

theorem offerKey_inj (l l' : String) (n n' : Nat)
    (h : offerKey l n = offerKey l' n') : l = l' ∧ n = n' := by
  have hd := congrArg String.data h
  rw [offerKey_data, offerKey_data] at hd
  obtain ⟨hA, _, hP⟩ := digit_split_suffix _ _ _ _ '-' '-'
    (padN_isDigit n) (padN_isDigit n') (by decide) (by decide) hd
  have hl : l.data = l'.data := (List.append_inj' hA (by simp)).1
  exact ⟨String.ext hl, padN_inj _ _ hP⟩

theorem ruleKey_ne_offerKey (o : String) (m : Nat) (l : String) (n : Nat) :
    ruleKey o m ≠ offerKey l n := by
  intro h
  have hd := congrArg String.data h
  rw [ruleKey_data, offerKey_data] at hd
  obtain ⟨hA, _, _⟩ := digit_split_suffix _ _ _ _ '-' '-'
    (padN_isDigit m) (padN_isDigit n) (by decide) (by decide) hd
  have hA' : ((['r', 'u', 'l', 'e', ':'] ++ o.data) ++ [':', 'R', 'U', 'L']) ++ ['E'] =
      (l.data ++ [':', 'O', 'F']) ++ ['R'] := by
    simpa [List.append_assoc] using hA
  have := congrArg List.getLast? hA'
  rw [List.getLast?_concat, List.getLast?_concat] at this
  simp at this

theorem padN_ne_colon (n : Nat) : ':' ∉ padN n := by
  intro h
  exact absurd (padN_isDigit n ':' h) (by decide)

theorem dealKey_ne_offerKey (m : Nat) (l : String) (n : Nat) :
    dealKey m ≠ offerKey l n := by
  intro h
  have hd := congrArg String.data h
  rw [dealKey_data, offerKey_data] at hd
  have hmem : ':' ∈ ['D', 'E', 'A', 'L', '-'] ++ padN m := by
    rw [hd]
    simp
  rcases List.mem_append.mp hmem with h1 | h1
  · simp at h1
  · exact padN_ne_colon m h1

theorem lstKey_ne_offerKey (m : Nat) (l : String) (n : Nat) :
    lstKey m ≠ offerKey l n := by
  intro h
  have hd := congrArg String.data h
  rw [lstKey_data, offerKey_data] at hd
  have hmem : ':' ∈ ['L', 'S', 'T', '-'] ++ padN m := by
    rw [hd]
    simp
  rcases List.mem_append.mp hmem with h1 | h1
  · simp at h1
  · exact padN_ne_colon m h1

theorem listingId_ne_offer_key (lid oid : String) : lid ≠ lid ++ ":" ++ oid := by
  intro h
  have hlen := congrArg String.length h
  have h1 : (":" : String).length = 1 := rfl
  simp only [String.length_append] at hlen
  omega

theorem vget_vput (v : View) (k₀ k : String) (val : StoredVal) :
    vget (vput v k₀ val) k = if k = k₀ then some val else vget v k := rfl

/-! ## Reachability invariants of the state machine -/

/-- Every key holding an offer record was written by `offer_send`: it has the shape
`` `${listingId}:OFR-###` `` with a sequence number not exceeding the current
`offerSeq`. -/
def InvShapeV (v : View) (σo : Nat) : Prop :=
  ∀ k o, vget v k = some (.offer o) → ∃ l n, k = offerKey l n ∧ n ≤ σo

/-- Every stored deal's `` `${listingId}:${offerId}` `` key holds an offer that is
`accepted` (or later marked `sold` by a listing-sold write hitting that key). -/
def InvDealOfferV (v : View) : Prop :=
  ∀ k d, vget v k = some (.deal d) →
    ∃ o, vget v (d.listingId ++ ":" ++ d.offerId) = some (.offer o) ∧
      (o.status = .accepted ∨ o.status = .sold)

/-- Two stored deals referencing the same `(listingId, offerId)` pair sit at the same
key (i.e. are the same record). -/
def InvUniqueV (v : View) : Prop :=
  ∀ k1 k2 d1 d2, vget v k1 = some (.deal d1) → vget v k2 = some (.deal d2) →
    d1.listingId = d2.listingId → d1.offerId = d2.offerId → k1 = k2

/-- The conjunction of the reachability invariants. -/
def Invariant (s : MState) : Prop :=
  InvShapeV s.view s.offerSeq ∧ InvDealOfferV s.view ∧ InvUniqueV s.view

theorem invariant_init : Invariant initState := by
  refine ⟨?_, ?_, ?_⟩ <;> intro k <;> intros <;> simp_all [initState, vget]

/-- A single `view.put` of a non-offer value preserves the invariants, provided the
key does not currently hold an offer, and a written deal only replaces a deal with the
same `(listingId, offerId)` pair. -/
theorem invV_put (v : View) (σo : Nat)
    (hS : InvShapeV v σo) (hD : InvDealOfferV v) (hU : InvUniqueV v)
    (k₀ : String) (val : StoredVal)
    (hnotoffer : ∀ o : Offer, val ≠ .offer o)
    (hdeal : ∀ d : Deal, val = .deal d → ∃ d₀ : Deal, vget v k₀ = some (.deal d₀) ∧
      d₀.listingId = d.listingId ∧ d₀.offerId = d.offerId)
    (hnoclobber : ∀ o : Offer, vget v k₀ ≠ some (.offer o)) :
    InvShapeV (vput v k₀ val) σo ∧ InvDealOfferV (vput v k₀ val) ∧
      InvUniqueV (vput v k₀ val) := by
  have hvv : ∀ k, vget (vput v k₀ val) k = if k = k₀ then some val else vget v k :=
    fun k => vget_vput v k₀ k val
  have key_step : ∀ (o : Offer) (kk : String), vget v kk = some (.offer o) →
      vget (vput v k₀ val) kk = some (.offer o) := by
    intro o kk hkk
    rw [hvv, if_neg]
    · exact hkk
    · intro hkeq
      exact hnoclobber o (hkeq ▸ hkk)
  have red : ∀ (k : String) (d : Deal), vget (vput v k₀ val) k = some (.deal d) →
      ∃ dd : Deal, vget v k = some (.deal dd) ∧ dd.listingId = d.listingId ∧
        dd.offerId = d.offerId := by
    intro k d hk
    rw [hvv] at hk
    by_cases hkk : k = k₀
    · rw [if_pos hkk] at hk
      obtain ⟨d₀, hd₀, hl', ho'⟩ := hdeal d (Option.some.inj hk)
      exact ⟨d₀, hkk ▸ hd₀, hl', ho'⟩
    · rw [if_neg hkk] at hk
      exact ⟨d, hk, rfl, rfl⟩
  refine ⟨?_, ?_, ?_⟩
  · intro k o hk
    rw [hvv] at hk
    by_cases hkk : k = k₀
    · rw [if_pos hkk] at hk
      exact absurd (Option.some.inj hk) (hnotoffer o)
    · rw [if_neg hkk] at hk
      exact hS k o hk
  · intro k d hk
    obtain ⟨dd, hdd, hl, ho⟩ := red k d hk
    obtain ⟨o, hoff, hstat⟩ := hD k dd hdd
    rw [hl, ho] at hoff
    exact ⟨o, key_step o _ hoff, hstat⟩
  · intro k1 k2 d1 d2 h1 h2 hl ho
    obtain ⟨dd1, hdd1, hl1, ho1⟩ := red k1 d1 h1
    obtain ⟨dd2, hdd2, hl2, ho2⟩ := red k2 d2 h2
    exact hU k1 k2 dd1 dd2 hdd1 hdd2 (by rw [hl1, hl2, hl]) (by rw [ho1, ho2, ho])

/-- Overwriting a currently `pending` offer with another offer value preserves the
invariants (used for `offer_counter`, `offer_decline` and the first write of
`offer_accept`). -/
theorem invV_put_offer_pending (v : View) (σo : Nat)
    (hS : InvShapeV v σo) (hD : InvDealOfferV v) (hU : InvUniqueV v)
    (k₀ : String) (o o' : Offer)
    (hold : vget v k₀ = some (.offer o)) (hpend : o.status = .pending) :
    InvShapeV (vput v k₀ (.offer o')) σo ∧ InvDealOfferV (vput v k₀ (.offer o')) ∧
      InvUniqueV (vput v k₀ (.offer o')) := by
  have hvv : ∀ k, vget (vput v k₀ (.offer o')) k =
      if k = k₀ then some (.offer o') else vget v k :=
    fun k => vget_vput v k₀ k (.offer o')
  have hk₀ne : ∀ (kk : String) (oD : Offer), vget v kk = some (.offer oD) →
      (oD.status = .accepted ∨ oD.status = .sold) → kk ≠ k₀ := by
    intro kk oD hkk hstat hkeq
    rw [hkeq, hold] at hkk
    obtain rfl : oD = o := by
      injection Option.some.inj hkk with hh
      exact hh.symm
    rcases hstat with h1 | h1 <;> rw [hpend] at h1 <;> exact OStatus.noConfusion h1
  have red : ∀ (k : String) (d : Deal), vget (vput v k₀ (.offer o')) k = some (.deal d) →
      vget v k = some (.deal d) := by
    intro k d hk
    rw [hvv] at hk
    by_cases hkk : k = k₀
    · rw [if_pos hkk] at hk
      exact absurd (Option.some.inj hk) (by simp)
    · rw [if_neg hkk] at hk
      exact hk
  refine ⟨?_, ?_, ?_⟩
  · intro k o₂ hk
    rw [hvv] at hk
    by_cases hkk : k = k₀
    · subst hkk
      exact hS k o hold
    · rw [if_neg hkk] at hk
      exact hS k o₂ hk
  · intro k d hk
    obtain ⟨oD, hoffD, hstatD⟩ := hD k d (red k d hk)
    refine ⟨oD, ?_, hstatD⟩
    rw [hvv, if_neg (hk₀ne _ oD hoffD hstatD)]
    exact hoffD
  · intro k1 k2 d1 d2 h1 h2 hl ho
    exact hU k1 k2 d1 d2 (red k1 d1 h1) (red k2 d2 h2) hl ho

/-- The three writes of a firing `offer_accept` (accepted offer, new deal, conditional
listing-sold write) preserve the invariants.  `dnew` is abstract: only its
`(listingId, offerId)` pair matters. -/
theorem invV_accept (v : View) (σo : Nat)
    (hS : InvShapeV v σo) (hD : InvDealOfferV v) (hU : InvUniqueV v)
    (lid oid : String) (o o' : Offer) (dnew : Deal) (nD : Nat) (ts : Int)
    (hstored : vget v (lid ++ ":" ++ oid) = some (.offer o))
    (hpend : o.status = .pending)
    (hacc : o'.status = .accepted)
    (hlpair : dnew.listingId = lid) (hopair : dnew.offerId = oid) :
    InvShapeV (soldWrite (vput (vput v (lid ++ ":" ++ oid) (.offer o'))
        (dealKey nD) (.deal dnew)) lid
        (vget (vput v (lid ++ ":" ++ oid) (.offer o')) lid) ts (dealKey nD)) σo ∧
    InvDealOfferV (soldWrite (vput (vput v (lid ++ ":" ++ oid) (.offer o'))
        (dealKey nD) (.deal dnew)) lid
        (vget (vput v (lid ++ ":" ++ oid) (.offer o')) lid) ts (dealKey nD)) ∧
    InvUniqueV (soldWrite (vput (vput v (lid ++ ":" ++ oid) (.offer o'))
        (dealKey nD) (.deal dnew)) lid
        (vget (vput v (lid ++ ":" ++ oid) (.offer o')) lid) ts (dealKey nD)) := by
  have hlidne : lid ≠ lid ++ ":" ++ oid := listingId_ne_offer_key lid oid
  have hv1 : ∀ k, vget (vput v (lid ++ ":" ++ oid) (.offer o')) k =
      if k = lid ++ ":" ++ oid then some (.offer o') else vget v k :=
    fun k => vget_vput v _ k _
  have hlst : vget (vput v (lid ++ ":" ++ oid) (.offer o')) lid = vget v lid := by
    rw [hv1, if_neg hlidne]
  obtain ⟨l₀, n₀, hK₀shape, _⟩ := hS (lid ++ ":" ++ oid) o hstored
  have hKDne : dealKey nD ≠ lid ++ ":" ++ oid := by
    rw [hK₀shape]
    exact dealKey_ne_offerKey nD l₀ n₀
  have hnoOffAtDeal : ∀ (oD : Offer) (kk : String) (m : Nat),
      vget v kk = some (.offer oD) → kk ≠ dealKey m := by
    intro oD kk m hkk hkeq
    obtain ⟨l, n, hsh, _⟩ := hS kk oD hkk
    exact dealKey_ne_offerKey m l n (hkeq ▸ hsh)
  have haccNotK₀ : ∀ (oD : Offer) (kk : String), vget v kk = some (.offer oD) →
      (oD.status = .accepted ∨ oD.status = .sold) → kk ≠ lid ++ ":" ++ oid := by
    intro oD kk hkk hstat hkeq
    rw [hkeq, hstored] at hkk
    obtain rfl : oD = o := by
      injection Option.some.inj hkk with hh
      exact hh.symm
    rcases hstat with h1 | h1 <;> rw [hpend] at h1 <;> exact OStatus.noConfusion h1
  have hv2 : ∀ k, vget (vput (vput v (lid ++ ":" ++ oid) (.offer o'))
      (dealKey nD) (.deal dnew)) k =
      if k = dealKey nD then some (.deal dnew)
      else if k = lid ++ ":" ++ oid then some (.offer o') else vget v k := by
    intro k
    rw [vget_vput]
    by_cases hk : k = dealKey nD
    · rw [if_pos hk, if_pos hk]
    · rw [if_neg hk, if_neg hk, hv1]
  have hred2 : ∀ (k : String) (d : Deal),
      vget (vput (vput v (lid ++ ":" ++ oid) (.offer o')) (dealKey nD) (.deal dnew)) k =
        some (.deal d) →
      (k = dealKey nD ∧ d = dnew) ∨ (k ≠ dealKey nD ∧ vget v k = some (.deal d)) := by
    intro k d hk
    rw [hv2] at hk
    by_cases h1 : k = dealKey nD
    · rw [if_pos h1] at hk
      refine Or.inl ⟨h1, ?_⟩
      injection Option.some.inj hk with hh
      exact hh.symm
    · rw [if_neg h1] at hk
      by_cases h2 : k = lid ++ ":" ++ oid
      · rw [if_pos h2] at hk
        exact absurd (Option.some.inj hk) (by simp)
      · rw [if_neg h2] at hk
        exact Or.inr ⟨h1, hk⟩
  have hS2 : InvShapeV (vput (vput v (lid ++ ":" ++ oid) (.offer o'))
      (dealKey nD) (.deal dnew)) σo := by
    intro k o₂ hk
    rw [hv2] at hk
    by_cases h1 : k = dealKey nD
    · rw [if_pos h1] at hk
      exact absurd (Option.some.inj hk) (by simp)
    · rw [if_neg h1] at hk
      by_cases h2 : k = lid ++ ":" ++ oid
      · subst h2
        exact hS _ o hstored
      · rw [if_neg h2] at hk
        exact hS k o₂ hk
  -- the view after offer and deal writes, before the conditional sold write
  rw [hlst]
  rcases hsold : vget v lid with _ | st
  · -- `entry.listingId` is unoccupied: no third write
    simp only [soldWrite]
    refine ⟨hS2, ?_, ?_⟩
    · intro k d hk
      rcases hred2 k d hk with ⟨hkk, hdd⟩ | ⟨hne, hold⟩
      · refine ⟨o', ?_, Or.inl hacc⟩
        rw [hdd, hlpair, hopair, hv2, if_neg (fun hh => hKDne hh.symm), if_pos rfl]
      · obtain ⟨oD, hoffD, hstatD⟩ := hD k d hold
        refine ⟨oD, ?_, hstatD⟩
        rw [hv2, if_neg (fun hh => hnoOffAtDeal oD _ nD hoffD hh),
          if_neg (haccNotK₀ oD _ hoffD hstatD)]
        exact hoffD
    · intro k1 k2 d1 d2 h1 h2 hl ho
      rcases hred2 k1 d1 h1 with ⟨hk1, hd1⟩ | ⟨hne1, hold1⟩ <;>
        rcases hred2 k2 d2 h2 with ⟨hk2, hd2⟩ | ⟨hne2, hold2⟩
      · rw [hk1, hk2]
      · exfalso
        obtain ⟨oD, hoffD, hstatD⟩ := hD k2 d2 hold2
        rw [← hl, ← ho, hd1, hlpair, hopair, hstored] at hoffD
        obtain rfl : oD = o := StoredVal.offer.inj (Option.some.inj hoffD.symm)
        rcases hstatD with hx | hx <;> rw [hpend] at hx <;> exact OStatus.noConfusion hx
      · exfalso
        obtain ⟨oD, hoffD, hstatD⟩ := hD k1 d1 hold1
        rw [hl, ho, hd2, hlpair, hopair, hstored] at hoffD
        obtain rfl : oD = o := StoredVal.offer.inj (Option.some.inj hoffD.symm)
        rcases hstatD with hx | hx <;> rw [hpend] at hx <;> exact OStatus.noConfusion hx
      · exact hU k1 k2 d1 d2 hold1 hold2 hl ho
  · -- `entry.listingId` holds `st`: it is marked sold
    simp only [soldWrite]
    have hv3 : ∀ k, vget (vput (vput (vput v (lid ++ ":" ++ oid) (.offer o'))
        (dealKey nD) (.deal dnew)) lid (markSold ts (dealKey nD) st)) k =
        if k = lid then some (markSold ts (dealKey nD) st)
        else if k = dealKey nD then some (.deal dnew)
        else if k = lid ++ ":" ++ oid then some (.offer o') else vget v k := by
      intro k
      rw [vget_vput]
      by_cases hk : k = lid
      · rw [if_pos hk, if_pos hk]
      · rw [if_neg hk, if_neg hk, hv2]
    have red3 : ∀ (k : String) (d₃ : Deal),
        vget (vput (vput (vput v (lid ++ ":" ++ oid) (.offer o'))
          (dealKey nD) (.deal dnew)) lid (markSold ts (dealKey nD) st)) k =
          some (.deal d₃) →
        (k ≠ lid ∧ k = dealKey nD ∧ d₃ = dnew) ∨
        (∃ dd : Deal, vget v k = some (.deal dd) ∧ dd.listingId = d₃.listingId ∧
          dd.offerId = d₃.offerId) := by
      intro k d₃ hk
      rw [hv3] at hk
      by_cases h1 : k = lid
      · rw [if_pos h1] at hk
        cases st with
        | deal d₀ =>
          simp only [markSold] at hk
          have hd₃ := Option.some.inj hk
          refine Or.inr ⟨d₀, h1 ▸ hsold, ?_, ?_⟩ <;>
            · injection hd₃ with hh
              rw [← hh]
        | listing l₁ => simp [markSold] at hk
        | offer o₁ => simp [markSold] at hk
        | rule r₁ => simp [markSold] at hk
      · rw [if_neg h1] at hk
        by_cases h2 : k = dealKey nD
        · rw [if_pos h2] at hk
          refine Or.inl ⟨h1, h2, ?_⟩
          injection Option.some.inj hk with hh
          exact hh.symm
        · rw [if_neg h2] at hk
          by_cases h3 : k = lid ++ ":" ++ oid
          · rw [if_pos h3] at hk
            exact absurd (Option.some.inj hk) (by simp)
          · rw [if_neg h3] at hk
            exact Or.inr ⟨d₃, hk, rfl, rfl⟩
    refine ⟨?_, ?_, ?_⟩
    · -- shape after all three writes
      intro k o₃ hk
      rw [hv3] at hk
      by_cases h1 : k = lid
      · rw [if_pos h1] at hk
        cases st with
        | offer o₁ =>
          subst h1
          exact hS k o₁ hsold
        | listing l₁ => simp [markSold] at hk
        | deal d₁ => simp [markSold] at hk
        | rule r₁ => simp [markSold] at hk
      · rw [if_neg h1] at hk
        by_cases h2 : k = dealKey nD
        · rw [if_pos h2] at hk
          exact absurd (Option.some.inj hk) (by simp)
        · rw [if_neg h2] at hk
          by_cases h3 : k = lid ++ ":" ++ oid
          · subst h3
            exact hS _ o hstored
          · rw [if_neg h3] at hk
            exact hS k o₃ hk
    · -- deal/offer linkage after all three writes
      intro k d₃ hk
      rcases red3 k d₃ hk with ⟨hne, hkk, hdd⟩ | ⟨dd, hdd, hl, ho⟩
      · refine ⟨o', ?_, Or.inl hacc⟩
        rw [hdd, hlpair, hopair, hv3, if_neg (Ne.symm hlidne),
          if_neg (fun hh => hKDne hh.symm), if_pos rfl]
      · obtain ⟨oD, hoffD, hstatD⟩ := hD k dd hdd
        rw [hl, ho] at hoffD
        by_cases hkoff : d₃.listingId ++ ":" ++ d₃.offerId = lid
        · rw [hkoff, hsold] at hoffD
          obtain rfl : st = .offer oD := Option.some.inj hoffD
          refine ⟨{ oD with status := .sold, soldAt := some ts, dealId := some (dealKey nD) }, ?_, Or.inr rfl⟩
          rw [hv3, if_pos hkoff]
          rfl
        · refine ⟨oD, ?_, hstatD⟩
          rw [hv3, if_neg hkoff,
            if_neg (fun hh => hnoOffAtDeal oD _ nD hoffD hh),
            if_neg (haccNotK₀ oD _ hoffD hstatD)]
          exact hoffD
    · -- uniqueness after all three writes
      intro k1 k2 d1 d2 h1 h2 hl ho
      rcases red3 k1 d1 h1 with ⟨hne1, hk1, hd1⟩ | ⟨dd1, hdd1, hl1, ho1⟩ <;>
        rcases red3 k2 d2 h2 with ⟨hne2, hk2, hd2⟩ | ⟨dd2, hdd2, hl2, ho2⟩
      · rw [hk1, hk2]
      · exfalso
        obtain ⟨oD, hoffD, hstatD⟩ := hD k2 dd2 hdd2
        rw [hl2, ho2, ← hl, ← ho, hd1, hlpair, hopair, hstored] at hoffD
        obtain rfl : oD = o := StoredVal.offer.inj (Option.some.inj hoffD.symm)
        rcases hstatD with hx | hx <;> rw [hpend] at hx <;> exact OStatus.noConfusion hx
      · exfalso
        obtain ⟨oD, hoffD, hstatD⟩ := hD k1 dd1 hdd1
        rw [hl1, ho1, hl, ho, hd2, hlpair, hopair, hstored] at hoffD
        obtain rfl : oD = o := StoredVal.offer.inj (Option.some.inj hoffD.symm)
        rcases hstatD with hx | hx <;> rw [hpend] at hx <;> exact OStatus.noConfusion hx
      · exact hU k1 k2 dd1 dd2 hdd1 hdd2 (by rw [hl1, hl2, hl]) (by rw [ho1, ho2, ho])

/-- Every `apply` step preserves the invariants. -/
theorem invariant_step (s : MState) (e : Entry) (h : Invariant s) :
    Invariant (step e s) := by
  obtain ⟨hS, hD, hU⟩ := h
  cases e with
  | listing_post title desc price currency category tags seller ts =>
    simp only [step]
    refine invV_put s.view s.offerSeq hS hD hU _ _ ?_ ?_ ?_
    · intro o hh
      exact StoredVal.noConfusion hh
    · intro d hh
      exact StoredVal.noConfusion hh
    · intro o hv
      obtain ⟨l, n, hsh, _⟩ := hS _ o hv
      exact lstKey_ne_offerKey (s.listingSeq + 1) l n hsh
  | listing_update id price desc seller ts =>
    simp only [step]
    rcases hstored : vget s.view id with _ | stored
    · exact ⟨hS, hD, hU⟩
    · cases stored with
      | listing l =>
        dsimp only
        by_cases hsell : l.seller = seller
        · rw [if_pos hsell]
          refine invV_put s.view s.offerSeq hS hD hU _ _ ?_ ?_ ?_
          · intro o hh
            exact StoredVal.noConfusion hh
          · intro d hh
            exact StoredVal.noConfusion hh
          · intro o hv
            rw [hstored] at hv
            exact StoredVal.noConfusion (Option.some.inj hv)
        · rw [if_neg hsell]
          exact ⟨hS, hD, hU⟩
      | deal d =>
        dsimp only
        by_cases hsell : d.seller = seller
        · rw [if_pos hsell]
          refine invV_put s.view s.offerSeq hS hD hU _ _ ?_ ?_ ?_
          · intro o hh
            exact StoredVal.noConfusion hh
          · intro d' hh
            refine ⟨d, hstored, ?_, ?_⟩ <;> rw [← StoredVal.deal.inj hh]
          · intro o hv
            rw [hstored] at hv
            exact StoredVal.noConfusion (Option.some.inj hv)
        · rw [if_neg hsell]
          exact ⟨hS, hD, hU⟩
      | offer o => exact ⟨hS, hD, hU⟩
      | rule r => exact ⟨hS, hD, hU⟩
  | listing_remove id seller ts =>
    simp only [step]
    rcases hstored : vget s.view id with _ | stored
    · exact ⟨hS, hD, hU⟩
    · cases stored with
      | listing l =>
        dsimp only
        by_cases hsell : l.seller = seller
        · rw [if_pos hsell]
          refine invV_put s.view s.offerSeq hS hD hU _ _ ?_ ?_ ?_
          · intro o hh
            exact StoredVal.noConfusion hh
          · intro d hh
            exact StoredVal.noConfusion hh
          · intro o hv
            rw [hstored] at hv
            exact StoredVal.noConfusion (Option.some.inj hv)
        · rw [if_neg hsell]
          exact ⟨hS, hD, hU⟩
      | deal d =>
        dsimp only
        by_cases hsell : d.seller = seller
        · rw [if_pos hsell]
          refine invV_put s.view s.offerSeq hS hD hU _ _ ?_ ?_ ?_
          · intro o hh
            exact StoredVal.noConfusion hh
          · intro d' hh
            refine ⟨d, hstored, ?_, ?_⟩ <;> rw [← StoredVal.deal.inj hh]
          · intro o hv
            rw [hstored] at hv
            exact StoredVal.noConfusion (Option.some.inj hv)
        · rw [if_neg hsell]
          exact ⟨hS, hD, hU⟩
      | offer o => exact ⟨hS, hD, hU⟩
      | rule r => exact ⟨hS, hD, hU⟩
  | offer_send listingId buyer amount note ts =>
    simp only [step]
    have hfresh : ∀ o₂ : Offer,
        vget s.view (listingId ++ ":" ++ nextId "OFR" (s.offerSeq + 1)) ≠
          some (.offer o₂) := by
      intro o₂ hv
      obtain ⟨l, n, hsh, hn⟩ := hS _ o₂ hv
      obtain ⟨-, hnn⟩ := offerKey_inj listingId l (s.offerSeq + 1) n hsh
      omega
    refine ⟨?_, ?_, ?_⟩ <;> dsimp only
    · intro k o₂ hk
      rw [vget_vput] at hk
      by_cases hkk : k = listingId ++ ":" ++ nextId "OFR" (s.offerSeq + 1)
      · exact ⟨listingId, s.offerSeq + 1, hkk, Nat.le_refl _⟩
      · rw [if_neg hkk] at hk
        obtain ⟨l, n, hsh, hn⟩ := hS k o₂ hk
        exact ⟨l, n, hsh, by omega⟩
    · intro k d hk
      rw [vget_vput] at hk
      by_cases hkk : k = listingId ++ ":" ++ nextId "OFR" (s.offerSeq + 1)
      · rw [if_pos hkk] at hk
        exact absurd (Option.some.inj hk) (by simp)
      · rw [if_neg hkk] at hk
        obtain ⟨oD, hoffD, hstatD⟩ := hD k d hk
        refine ⟨oD, ?_, hstatD⟩
        have hne : d.listingId ++ ":" ++ d.offerId ≠
            listingId ++ ":" ++ nextId "OFR" (s.offerSeq + 1) := by
          intro hh
          rw [hh] at hoffD
          exact hfresh oD hoffD
        rw [vget_vput, if_neg hne]
        exact hoffD
    · intro k1 k2 d1 d2 h1 h2 hl ho
      rw [vget_vput] at h1 h2
      by_cases hk1 : k1 = listingId ++ ":" ++ nextId "OFR" (s.offerSeq + 1)
      · rw [if_pos hk1] at h1
        exact absurd (Option.some.inj h1) (by simp)
      · rw [if_neg hk1] at h1
        by_cases hk2 : k2 = listingId ++ ":" ++ nextId "OFR" (s.offerSeq + 1)
        · rw [if_pos hk2] at h2
          exact absurd (Option.some.inj h2) (by simp)
        · rw [if_neg hk2] at h2
          exact hU k1 k2 d1 d2 h1 h2 hl ho
  | offer_counter listingId offerId amount by_ ts =>
    simp only [step]
    rcases hstored : vget s.view (listingId ++ ":" ++ offerId) with _ | stored
    · exact ⟨hS, hD, hU⟩
    · cases stored with
      | offer o =>
        dsimp only
        by_cases hpend : o.status = .pending
        · rw [if_pos hpend]
          exact invV_put_offer_pending s.view s.offerSeq hS hD hU _ o _ hstored hpend
        · rw [if_neg hpend]
          exact ⟨hS, hD, hU⟩
      | listing l => exact ⟨hS, hD, hU⟩
      | deal d => exact ⟨hS, hD, hU⟩
      | rule r => exact ⟨hS, hD, hU⟩
  | offer_accept listingId offerId by_ seller ts =>
    simp only [step]
    rcases hstored : vget s.view (listingId ++ ":" ++ offerId) with _ | stored
    · exact ⟨hS, hD, hU⟩
    · cases stored with
      | offer o =>
        dsimp only
        by_cases hpend : o.status = .pending
        · rw [if_pos hpend]
          exact invV_accept s.view s.offerSeq hS hD hU listingId offerId o
            (acceptedOffer o by_ ts)
            (newDeal (vput s.view (listingId ++ ":" ++ offerId)
              (.offer (acceptedOffer o by_ ts))) listingId offerId o seller
              (s.dealSeq + 1) ts)
            (s.dealSeq + 1) ts hstored hpend rfl rfl rfl
        · rw [if_neg hpend]
          exact ⟨hS, hD, hU⟩
      | listing l => exact ⟨hS, hD, hU⟩
      | deal d => exact ⟨hS, hD, hU⟩
      | rule r => exact ⟨hS, hD, hU⟩
  | offer_decline listingId offerId by_ ts =>
    simp only [step]
    rcases hstored : vget s.view (listingId ++ ":" ++ offerId) with _ | stored
    · exact ⟨hS, hD, hU⟩
    · cases stored with
      | offer o =>
        dsimp only
        by_cases hpend : o.status = .pending
        · rw [if_pos hpend]
          exact invV_put_offer_pending s.view s.offerSeq hS hD hU _ o _ hstored hpend
        · rw [if_neg hpend]
          exact ⟨hS, hD, hU⟩
      | listing l => exact ⟨hS, hD, hU⟩
      | deal d => exact ⟨hS, hD, hU⟩
      | rule r => exact ⟨hS, hD, hU⟩
  | rule_set owner ruleType params ts =>
    simp only [step]
    refine invV_put s.view s.offerSeq hS hD hU _ _ ?_ ?_ ?_
    · intro o hh
      exact StoredVal.noConfusion hh
    · intro d hh
      exact StoredVal.noConfusion hh
    · intro o hv
      obtain ⟨l, n, hsh, _⟩ := hS _ o hv
      exact ruleKey_ne_offerKey owner (s.ruleSeq + 1) l n hsh
  | rule_delete owner ruleId ts =>
    simp only [step]
    rcases hstored : vget s.view ("rule:" ++ owner ++ ":" ++ ruleId) with _ | stored
    · exact ⟨hS, hD, hU⟩
    · cases stored with
      | rule r =>
        dsimp only
        by_cases hown : r.owner = owner
        · rw [if_pos hown]
          refine invV_put s.view s.offerSeq hS hD hU _ _ ?_ ?_ ?_
          · intro o hh
            exact StoredVal.noConfusion hh
          · intro d hh
            exact StoredVal.noConfusion hh
          · intro o hv
            rw [hstored] at hv
            exact StoredVal.noConfusion (Option.some.inj hv)
        · rw [if_neg hown]
          exact ⟨hS, hD, hU⟩
      | listing l => exact ⟨hS, hD, hU⟩
      | deal d => exact ⟨hS, hD, hU⟩
      | offer o => exact ⟨hS, hD, hU⟩
  | malformed => exact ⟨hS, hD, hU⟩
  | nullValue => exact ⟨hS, hD, hU⟩

/-- The invariants hold in every state `applyNodes` reaches from an invariant state. -/
theorem invariant_applyNodes (log : List Entry) : ∀ (s s' : MState), Invariant s →
    applyNodes log s = .ok s' → Invariant s' := by
  induction log with
  | nil =>
    intro s s' h hap
    simp only [applyNodes] at hap
    injection hap with hh
    exact hh ▸ h
  | cons e rest ih =>
    intro s s' h hap
    cases e
    case nullValue => simp [applyNodes] at hap
    all_goals exact ih _ _ (invariant_step s _ h) hap

/-- The invariants hold in every state reachable from the fresh-process state. -/
theorem invariant_reachable (log : List Entry) (s : MState)
    (h : applyNodes log initState = .ok s) : Invariant s :=
  invariant_applyNodes log initState s invariant_init h

/-! ## Claim theorems -/

/-- The log used for C1: a single `listing_post`. -/
def c1Log : List Entry :=
  [.listing_post "Keyboard" "" 120 "" "electronics" "" "S" 0]

/-- C1 (code bug): replaying the same one-entry log twice, each run starting from an
empty View but within the same process (the module-level `listingSeq` carries over, as
in contract.js), yields different final Views: the first run stores the listing at
`LST-001`, the second at `LST-002`.  The next id is read from process-lifetime
memory (`listingSeq`), not derived from committed state, contradicting the spec's
determinism requirement. -/
theorem C1_replay_divergence :
    ∃ s1 s2 : MState,
      applyNodes c1Log initState = .ok s1 ∧
      applyNodes c1Log { s1 with view := [] } = .ok s2 ∧
      vget s1.view "LST-001" ≠ none ∧
      vget s2.view "LST-001" = none ∧
      vget s2.view "LST-002" ≠ none ∧
      s1.view ≠ s2.view := by
  refine ⟨_, _, rfl, rfl, ?_, ?_, ?_, ?_⟩ <;> decide

/-- C2 (code bug): a log value holding the five bytes `null` decodes successfully
(`JSON.parse` does not throw), after which `entry.op` throws an uncaught `TypeError`:
`apply` raises instead of skipping the entry, and the remaining entries of the batch
are never processed. -/
theorem C2_apply_raises_on_null (s : MState) (rest : List Entry) :
    applyNodes (Entry.nullValue :: rest) s =
      .error "TypeError: Cannot read properties of null (reading op)" :=
  rfl

/-- C2 witness: the raise at a concrete input. -/
theorem C2_apply_raises_on_null_witness :
    applyNodes [Entry.nullValue] initState =
      .error "TypeError: Cannot read properties of null (reading op)" :=
  C2_apply_raises_on_null initState []

/-- The log used for C5: one listing, two independent offers, both accepted. -/
def c5Log : List Entry :=
  [.listing_post "Keyboard" "" 120 "" "electronics" "" "S" 0,
   .offer_send "LST-001" "B1" 90 "" 1,
   .offer_send "LST-001" "B2" 95 "" 2,
   .offer_accept "LST-001" "OFR-001" "S" "S" 3,
   .offer_accept "LST-001" "OFR-002" "S" "S" 4]

/-- C5 (confirmed): after posting one listing, sending two independent offers and
accepting both, the View holds two distinct Deal records referencing the same
`listingId`.  After the first acceptance the listing is already `sold`, yet the second
`offer_accept` still fires — it checks only the offer's `pending` status, never the
listing's status. -/
theorem C5_double_deal :
    ∃ (s4 s5 : MState) (l4 : Listing) (o2 : Offer) (d1 d2 : Deal),
      applyNodes (c5Log.take 4) initState = .ok s4 ∧
      vget s4.view "LST-001" = some (.listing l4) ∧ l4.status = .sold ∧
      vget s4.view "LST-001:OFR-002" = some (.offer o2) ∧ o2.status = .pending ∧
      applyNodes c5Log initState = .ok s5 ∧
      vget s5.view "DEAL-001" = some (.deal d1) ∧
      vget s5.view "DEAL-002" = some (.deal d2) ∧
      d1.listingId = "LST-001" ∧ d2.listingId = "LST-001" ∧ d1 ≠ d2 := by
  refine ⟨_, _, _, _, _, _, rfl, rfl, ?_, rfl, ?_, rfl, rfl, rfl, ?_, ?_, ?_⟩ <;> decide

/-- The log used for C3's counterexample: the second `offer_send` targets the first
offer's storage key as its `listingId`, so accepting the second offer runs the
listing-sold write against the first offer record. -/
def c3Log : List Entry :=
  [.offer_send "X" "B1" 10 "" 0,
   .offer_send "X:OFR-001" "B2" 20 "" 2,
   .offer_accept "X:OFR-001" "OFR-002" "S" "S" 3]

/-- C3 counterexample: in a state reachable from empty, an offer's status moves to
`sold` — outside the claimed `pending → {accepted, declined}` lifecycle.  The offer at
key `X:OFR-001` starts `pending`; accepting the unrelated offer
`(X:OFR-001, OFR-002)` treats the string `X:OFR-001` as a listing key and stamps
`status:'sold'`, `soldAt`, `dealId` onto the stored offer record. -/
theorem C3_counterexample :
    ∃ (s2 s3 : MState) (o1 : Offer) (o1' : Offer),
      applyNodes (c3Log.take 2) initState = .ok s2 ∧
      vget s2.view "X:OFR-001" = some (.offer o1) ∧ o1.status = .pending ∧
      applyNodes c3Log initState = .ok s3 ∧
      vget s3.view "X:OFR-001" = some (.offer o1') ∧ o1'.status = .sold := by
  refine ⟨_, _, _, _, rfl, rfl, ?_, rfl, rfl, ?_⟩ <;> decide

/-- C3 (amended): in every reachable state, a step changes a stored offer's status only
(a) not at all, (b) from `pending` to `accepted` or `declined`, or (c) to `sold`, the
latter only when the entry is an `offer_accept` whose `listingId` field equals the
offer's storage key (the listing-sold write).  Moreover a terminal (non-`pending`)
offer is left entirely unchanged by any `offer_counter`, `offer_accept` or
`offer_decline` entry addressing it through its own `(listingId, offerId)` pair. -/
theorem C3_offer_lifecycle (log : List Entry) (s : MState)
    (hreach : applyNodes log initState = .ok s) :
    (∀ (e : Entry) (k : String) (o o' : Offer),
      vget s.view k = some (.offer o) →
      vget (step e s).view k = some (.offer o') →
      o'.status = o.status ∨
      (o.status = .pending ∧ (o'.status = .accepted ∨ o'.status = .declined)) ∨
      (o'.status = .sold ∧ ∃ (oid b sel : String) (ts : Int),
        e = .offer_accept k oid b sel ts))
    ∧
    (∀ (lid oid : String) (o : Offer),
      vget s.view (lid ++ ":" ++ oid) = some (.offer o) → o.status ≠ .pending →
      ∀ (amt : ℚ) (b sel : String) (ts : Int),
        step (.offer_counter lid oid amt b ts) s = s ∧
        step (.offer_accept lid oid b sel ts) s = s ∧
        step (.offer_decline lid oid b ts) s = s) := by
  obtain ⟨hS, hD, hU⟩ := invariant_reachable log s hreach
  constructor
  · intro e k o o' h1 h2
    cases e with
    | listing_post title desc price currency category tags seller ts =>
      simp only [step] at h2
      rw [vget_vput] at h2
      by_cases hkk : k = nextId "LST" (s.listingSeq + 1)
      · rw [if_pos hkk] at h2
        exact absurd (Option.some.inj h2) (by simp)
      · rw [if_neg hkk] at h2
        rw [h1] at h2
        exact Or.inl (by rw [StoredVal.offer.inj (Option.some.inj h2)])
    | listing_update id price desc seller ts =>
      simp only [step] at h2
      rcases hstored : vget s.view id with _ | stored <;> rw [hstored] at h2
      · rw [h1] at h2
        exact Or.inl (by rw [StoredVal.offer.inj (Option.some.inj h2)])
      · cases stored with
        | listing l =>
          dsimp only at h2
          by_cases hsell : l.seller = seller
          · rw [if_pos hsell, vget_vput] at h2
            by_cases hkk : k = id
            · rw [if_pos hkk] at h2
              exact absurd (Option.some.inj h2) (by simp)
            · rw [if_neg hkk, h1] at h2
              exact Or.inl (by rw [StoredVal.offer.inj (Option.some.inj h2)])
          · rw [if_neg hsell, h1] at h2
            exact Or.inl (by rw [StoredVal.offer.inj (Option.some.inj h2)])
        | deal d =>
          dsimp only at h2
          by_cases hsell : d.seller = seller
          · rw [if_pos hsell, vget_vput] at h2
            by_cases hkk : k = id
            · rw [if_pos hkk] at h2
              exact absurd (Option.some.inj h2) (by simp)
            · rw [if_neg hkk, h1] at h2
              exact Or.inl (by rw [StoredVal.offer.inj (Option.some.inj h2)])
          · rw [if_neg hsell, h1] at h2
            exact Or.inl (by rw [StoredVal.offer.inj (Option.some.inj h2)])
        | offer oo =>
          rw [h1] at h2
          exact Or.inl (by rw [StoredVal.offer.inj (Option.some.inj h2)])
        | rule r =>
          rw [h1] at h2
          exact Or.inl (by rw [StoredVal.offer.inj (Option.some.inj h2)])
    | listing_remove id seller ts =>
      simp only [step] at h2
      rcases hstored : vget s.view id with _ | stored <;> rw [hstored] at h2
      · rw [h1] at h2
        exact Or.inl (by rw [StoredVal.offer.inj (Option.some.inj h2)])
      · cases stored with
        | listing l =>
          dsimp only at h2
          by_cases hsell : l.seller = seller
          · rw [if_pos hsell, vget_vput] at h2
            by_cases hkk : k = id
            · rw [if_pos hkk] at h2
              exact absurd (Option.some.inj h2) (by simp)
            · rw [if_neg hkk, h1] at h2
              exact Or.inl (by rw [StoredVal.offer.inj (Option.some.inj h2)])
          · rw [if_neg hsell, h1] at h2
            exact Or.inl (by rw [StoredVal.offer.inj (Option.some.inj h2)])
        | deal d =>
          dsimp only at h2
          by_cases hsell : d.seller = seller
          · rw [if_pos hsell, vget_vput] at h2
            by_cases hkk : k = id
            · rw [if_pos hkk] at h2
              exact absurd (Option.some.inj h2) (by simp)
            · rw [if_neg hkk, h1] at h2
              exact Or.inl (by rw [StoredVal.offer.inj (Option.some.inj h2)])
          · rw [if_neg hsell, h1] at h2
            exact Or.inl (by rw [StoredVal.offer.inj (Option.some.inj h2)])
        | offer oo =>
          rw [h1] at h2
          exact Or.inl (by rw [StoredVal.offer.inj (Option.some.inj h2)])
        | rule r =>
          rw [h1] at h2
          exact Or.inl (by rw [StoredVal.offer.inj (Option.some.inj h2)])
    | offer_send listingId buyer amount note ts =>
      simp only [step] at h2
      rw [vget_vput] at h2
      by_cases hkk : k = listingId ++ ":" ++ nextId "OFR" (s.offerSeq + 1)
      · exfalso
        rw [hkk] at h1
        obtain ⟨l, n, hsh, hn⟩ := hS _ o h1
        obtain ⟨-, hnn⟩ := offerKey_inj listingId l (s.offerSeq + 1) n hsh
        omega
      · rw [if_neg hkk, h1] at h2
        exact Or.inl (by rw [StoredVal.offer.inj (Option.some.inj h2)])
    | offer_counter listingId offerId amount by_ ts =>
      simp only [step] at h2
      rcases hstored : vget s.view (listingId ++ ":" ++ offerId) with _ | stored <;>
        rw [hstored] at h2
      · rw [h1] at h2
        exact Or.inl (by rw [StoredVal.offer.inj (Option.some.inj h2)])
      · cases stored with
        | offer oo =>
          dsimp only at h2
          by_cases hpend : oo.status = .pending
          · rw [if_pos hpend, vget_vput] at h2
            by_cases hkk : k = listingId ++ ":" ++ offerId
            · rw [if_pos hkk] at h2
              obtain rfl : o = oo := by
                rw [hkk, hstored] at h1
                exact (StoredVal.offer.inj (Option.some.inj h1)).symm
              obtain rfl := StoredVal.offer.inj (Option.some.inj h2.symm)
              exact Or.inl (by rw [hpend])
            · rw [if_neg hkk, h1] at h2
              exact Or.inl (by rw [StoredVal.offer.inj (Option.some.inj h2)])
          · rw [if_neg hpend, h1] at h2
            exact Or.inl (by rw [StoredVal.offer.inj (Option.some.inj h2)])
        | listing l =>
          rw [h1] at h2
          exact Or.inl (by rw [StoredVal.offer.inj (Option.some.inj h2)])
        | deal d =>
          rw [h1] at h2
          exact Or.inl (by rw [StoredVal.offer.inj (Option.some.inj h2)])
        | rule r =>
          rw [h1] at h2
          exact Or.inl (by rw [StoredVal.offer.inj (Option.some.inj h2)])
    | offer_accept listingId offerId by_ seller ts =>
      simp only [step] at h2
      rcases hstored : vget s.view (listingId ++ ":" ++ offerId) with _ | stored <;>
        rw [hstored] at h2
      · rw [h1] at h2
        exact Or.inl (by rw [StoredVal.offer.inj (Option.some.inj h2)])
      · cases stored with
        | offer oo =>
          dsimp only at h2
          by_cases hpend : oo.status = .pending
          · rw [if_pos hpend] at h2
            have hlidne : listingId ≠ listingId ++ ":" ++ offerId :=
              listingId_ne_offer_key listingId offerId
            rcases hls : vget (vput s.view (listingId ++ ":" ++ offerId)
                (.offer (acceptedOffer oo by_ ts))) listingId with _ | st <;>
              rw [hls] at h2 <;> simp only [soldWrite] at h2
            · -- no third write
              rw [vget_vput] at h2
              by_cases hk1 : k = nextId "DEAL" (s.dealSeq + 1)
              · rw [if_pos hk1] at h2
                exact absurd (Option.some.inj h2) (by simp)
              · rw [if_neg hk1, vget_vput] at h2
                by_cases hk2 : k = listingId ++ ":" ++ offerId
                · rw [if_pos hk2] at h2
                  obtain rfl : o = oo := by
                    rw [hk2, hstored] at h1
                    exact (StoredVal.offer.inj (Option.some.inj h1)).symm
                  obtain rfl := StoredVal.offer.inj (Option.some.inj h2.symm)
                  exact Or.inr (Or.inl ⟨hpend, Or.inl rfl⟩)
                · rw [if_neg hk2, h1] at h2
                  exact Or.inl (by rw [StoredVal.offer.inj (Option.some.inj h2)])
            · -- with the listing-sold write
              rw [vget_vput] at h2
              by_cases hk0 : k = listingId
              · rw [if_pos hk0] at h2
                rw [vget_vput, if_neg hlidne] at hls
                rw [hk0, hls] at h1
                obtain rfl : st = .offer o := Option.some.inj h1
                obtain rfl := StoredVal.offer.inj (Option.some.inj h2.symm)
                exact Or.inr (Or.inr ⟨rfl, offerId, by_, seller, ts, by rw [hk0]⟩)
              · rw [if_neg hk0, vget_vput] at h2
                by_cases hk1 : k = nextId "DEAL" (s.dealSeq + 1)
                · rw [if_pos hk1] at h2
                  exact absurd (Option.some.inj h2) (by simp)
                · rw [if_neg hk1, vget_vput] at h2
                  by_cases hk2 : k = listingId ++ ":" ++ offerId
                  · rw [if_pos hk2] at h2
                    obtain rfl : o = oo := by
                      rw [hk2, hstored] at h1
                      exact (StoredVal.offer.inj (Option.some.inj h1)).symm
                    obtain rfl := StoredVal.offer.inj (Option.some.inj h2.symm)
                    exact Or.inr (Or.inl ⟨hpend, Or.inl rfl⟩)
                  · rw [if_neg hk2, h1] at h2
                    exact Or.inl (by rw [StoredVal.offer.inj (Option.some.inj h2)])
          · rw [if_neg hpend, h1] at h2
            exact Or.inl (by rw [StoredVal.offer.inj (Option.some.inj h2)])
        | listing l =>
          rw [h1] at h2
          exact Or.inl (by rw [StoredVal.offer.inj (Option.some.inj h2)])
        | deal d =>
          rw [h1] at h2
          exact Or.inl (by rw [StoredVal.offer.inj (Option.some.inj h2)])
        | rule r =>
          rw [h1] at h2
          exact Or.inl (by rw [StoredVal.offer.inj (Option.some.inj h2)])
    | offer_decline listingId offerId by_ ts =>
      simp only [step] at h2
      rcases hstored : vget s.view (listingId ++ ":" ++ offerId) with _ | stored <;>
        rw [hstored] at h2
      · rw [h1] at h2
        exact Or.inl (by rw [StoredVal.offer.inj (Option.some.inj h2)])
      · cases stored with
        | offer oo =>
          dsimp only at h2
          by_cases hpend : oo.status = .pending
          · rw [if_pos hpend, vget_vput] at h2
            by_cases hkk : k = listingId ++ ":" ++ offerId
            · rw [if_pos hkk] at h2
              obtain rfl : o = oo := by
                rw [hkk, hstored] at h1
                exact (StoredVal.offer.inj (Option.some.inj h1)).symm
              obtain rfl := StoredVal.offer.inj (Option.some.inj h2.symm)
              exact Or.inr (Or.inl ⟨hpend, Or.inr rfl⟩)
            · rw [if_neg hkk, h1] at h2
              exact Or.inl (by rw [StoredVal.offer.inj (Option.some.inj h2)])
          · rw [if_neg hpend, h1] at h2
            exact Or.inl (by rw [StoredVal.offer.inj (Option.some.inj h2)])
        | listing l =>
          rw [h1] at h2
          exact Or.inl (by rw [StoredVal.offer.inj (Option.some.inj h2)])
        | deal d =>
          rw [h1] at h2
          exact Or.inl (by rw [StoredVal.offer.inj (Option.some.inj h2)])
        | rule r =>
          rw [h1] at h2
          exact Or.inl (by rw [StoredVal.offer.inj (Option.some.inj h2)])
    | rule_set owner ruleType params ts =>
      simp only [step] at h2
      rw [vget_vput] at h2
      by_cases hkk : k = "rule:" ++ owner ++ ":" ++ nextId "RULE" (s.ruleSeq + 1)
      · rw [if_pos hkk] at h2
        exact absurd (Option.some.inj h2) (by simp)
      · rw [if_neg hkk, h1] at h2
        exact Or.inl (by rw [StoredVal.offer.inj (Option.some.inj h2)])
    | rule_delete owner ruleId ts =>
      simp only [step] at h2
      rcases hstored : vget s.view ("rule:" ++ owner ++ ":" ++ ruleId) with _ | stored <;>
        rw [hstored] at h2
      · rw [h1] at h2
        exact Or.inl (by rw [StoredVal.offer.inj (Option.some.inj h2)])
      · cases stored with
        | rule r =>
          dsimp only at h2
          by_cases hown : r.owner = owner
          · rw [if_pos hown, vget_vput] at h2
            by_cases hkk : k = "rule:" ++ owner ++ ":" ++ ruleId
            · rw [if_pos hkk] at h2
              exact absurd (Option.some.inj h2) (by simp)
            · rw [if_neg hkk, h1] at h2
              exact Or.inl (by rw [StoredVal.offer.inj (Option.some.inj h2)])
          · rw [if_neg hown, h1] at h2
            exact Or.inl (by rw [StoredVal.offer.inj (Option.some.inj h2)])
        | listing l =>
          rw [h1] at h2
          exact Or.inl (by rw [StoredVal.offer.inj (Option.some.inj h2)])
        | deal d =>
          rw [h1] at h2
          exact Or.inl (by rw [StoredVal.offer.inj (Option.some.inj h2)])
        | offer oo =>
          rw [h1] at h2
          exact Or.inl (by rw [StoredVal.offer.inj (Option.some.inj h2)])
    | malformed =>
      rw [show step .malformed s = s from rfl, h1] at h2
      exact Or.inl (by rw [StoredVal.offer.inj (Option.some.inj h2)])
    | nullValue =>
      rw [show step .nullValue s = s from rfl, h1] at h2
      exact Or.inl (by rw [StoredVal.offer.inj (Option.some.inj h2)])
  · intro lid oid o hoff hterm amt b sel ts
    refine ⟨?_, ?_, ?_⟩ <;>
      · simp only [step]
        rw [hoff]
        dsimp only
        rw [if_neg hterm]

/-- Log for the C3 witness: one offer, then declined (a terminal offer). -/
def c3wLog : List Entry :=
  [.offer_send "X" "B1" 10 "" 0, .offer_decline "X" "OFR-001" "S" 1]

/-- State reached by `c3wLog`. -/
def c3wState : MState := (applyNodes c3wLog initState).toOption.getD initState

/-- The declined offer stored at `X:OFR-001` in `c3wState`. -/
def c3wOffer : Offer :=
  { id := "OFR-001", listingId := "X", buyer := "B1", amount := 10, note := ""
    status := .declined, createdAt := 0, history := [⟨10, "B1", 0⟩]
    declinedAt := some 1, declinedBy := some "S" }

/-- C3 witness: at the concrete reachable state with a declined offer, the three offer
mutations addressing it are no-ops. -/
theorem C3_offer_lifecycle_witness :
    step (.offer_counter "X" "OFR-001" 99 "M" 9) c3wState = c3wState ∧
    step (.offer_accept "X" "OFR-001" "M" "M" 9) c3wState = c3wState ∧
    step (.offer_decline "X" "OFR-001" "M" 9) c3wState = c3wState :=
  (C3_offer_lifecycle c3wLog c3wState (by rfl)).2 "X" "OFR-001" c3wOffer
    (by decide) (by decide) 99 "M" "M" 9

/-- Log for C4's counterexample: an offer accepted against a nonexistent listing
creates `DEAL-001`; a later `listing_update` whose `id` is the deal's key and whose
submitter matches the deal's `seller` field then mutates the stored deal. -/
def c4Log : List Entry :=
  [.offer_send "X" "B" 5 "" 0,
   .offer_accept "X" "OFR-001" "S" "S" 1,
   .listing_update "DEAL-001" (some 0) none "S" 2]

/-- C4 counterexample: an operation other than `offer_accept` mutates a stored Deal.
After `c4Log`, the record at `DEAL-001` differs from the record the acceptance created:
`listing_update` stamped `price` and `updatedAt` onto it. -/
theorem C4_counterexample :
    ∃ (s2 s3 : MState) (d2 d3 : Deal),
      applyNodes (c4Log.take 2) initState = .ok s2 ∧
      vget s2.view "DEAL-001" = some (.deal d2) ∧
      applyNodes c4Log initState = .ok s3 ∧
      vget s3.view "DEAL-001" = some (.deal d3) ∧
      d3 ≠ d2 ∧ d3.price = some 0 ∧ d3.updatedAt = some 2 := by
  refine ⟨_, _, _, _, rfl, rfl, rfl, rfl, ?_, ?_, ?_⟩ <;> decide

/-- C4 (amended): in every reachable state at most one stored Deal references a given
`(listingId, offerId)` pair, and a step introduces a deal at a key that did not hold
one only when the entry is an `offer_accept` transitioning that exact pair's offer from
`pending` (the new deal sits at the next `DEAL-###` key and references the accepted
pair).  However — unlike the original claim — a stored Deal is not immutable: a
`listing_update`/`listing_remove` addressing its key (or a listing-sold write) can
rewrite its fields, while preserving its `(listingId, offerId)` reference. -/
theorem C4_deal_uniqueness (log : List Entry) (s : MState)
    (hreach : applyNodes log initState = .ok s) :
    (∀ (k1 k2 : String) (d1 d2 : Deal),
      vget s.view k1 = some (.deal d1) → vget s.view k2 = some (.deal d2) →
      d1.listingId = d2.listingId → d1.offerId = d2.offerId → k1 = k2)
    ∧
    (∀ (e : Entry) (k : String) (d : Deal),
      vget (step e s).view k = some (.deal d) →
      (∃ d₀ : Deal, vget s.view k = some (.deal d₀) ∧
        d₀.listingId = d.listingId ∧ d₀.offerId = d.offerId) ∨
      (∃ (lid oid b sel : String) (ts : Int) (o : Offer),
        e = .offer_accept lid oid b sel ts ∧
        vget s.view (lid ++ ":" ++ oid) = some (.offer o) ∧ o.status = .pending ∧
        d.listingId = lid ∧ d.offerId = oid ∧ k = dealKey (s.dealSeq + 1))) := by
  obtain ⟨hS, hD, hU⟩ := invariant_reachable log s hreach
  refine ⟨hU, ?_⟩
  intro e k d h2
  cases e with
  | listing_post title desc price currency category tags seller ts =>
    simp only [step] at h2
    rw [vget_vput] at h2
    by_cases hkk : k = nextId "LST" (s.listingSeq + 1)
    · rw [if_pos hkk] at h2
      exact absurd (Option.some.inj h2) (by simp)
    · rw [if_neg hkk] at h2
      exact Or.inl ⟨d, h2, rfl, rfl⟩
  | listing_update id price desc seller ts =>
    simp only [step] at h2
    rcases hstored : vget s.view id with _ | stored <;> rw [hstored] at h2
    · exact Or.inl ⟨d, h2, rfl, rfl⟩
    · cases stored with
      | listing l =>
        dsimp only at h2
        by_cases hsell : l.seller = seller
        · rw [if_pos hsell, vget_vput] at h2
          by_cases hkk : k = id
          · rw [if_pos hkk] at h2
            exact absurd (Option.some.inj h2) (by simp)
          · rw [if_neg hkk] at h2
            exact Or.inl ⟨d, h2, rfl, rfl⟩
        · rw [if_neg hsell] at h2
          exact Or.inl ⟨d, h2, rfl, rfl⟩
      | deal d₀ =>
        dsimp only at h2
        by_cases hsell : d₀.seller = seller
        · rw [if_pos hsell, vget_vput] at h2
          by_cases hkk : k = id
          · rw [if_pos hkk] at h2
            refine Or.inl ⟨d₀, hkk ▸ hstored, ?_, ?_⟩ <;>
              rw [← StoredVal.deal.inj (Option.some.inj h2)]
          · rw [if_neg hkk] at h2
            exact Or.inl ⟨d, h2, rfl, rfl⟩
        · rw [if_neg hsell] at h2
          exact Or.inl ⟨d, h2, rfl, rfl⟩
      | offer oo => exact Or.inl ⟨d, h2, rfl, rfl⟩
      | rule r => exact Or.inl ⟨d, h2, rfl, rfl⟩
  | listing_remove id seller ts =>
    simp only [step] at h2
    rcases hstored : vget s.view id with _ | stored <;> rw [hstored] at h2
    · exact Or.inl ⟨d, h2, rfl, rfl⟩
    · cases stored with
      | listing l =>
        dsimp only at h2
        by_cases hsell : l.seller = seller
        · rw [if_pos hsell, vget_vput] at h2
          by_cases hkk : k = id
          · rw [if_pos hkk] at h2
            exact absurd (Option.some.inj h2) (by simp)
          · rw [if_neg hkk] at h2
            exact Or.inl ⟨d, h2, rfl, rfl⟩
        · rw [if_neg hsell] at h2
          exact Or.inl ⟨d, h2, rfl, rfl⟩
      | deal d₀ =>
        dsimp only at h2
        by_cases hsell : d₀.seller = seller
        · rw [if_pos hsell, vget_vput] at h2
          by_cases hkk : k = id
          · rw [if_pos hkk] at h2
            refine Or.inl ⟨d₀, hkk ▸ hstored, ?_, ?_⟩ <;>
              rw [← StoredVal.deal.inj (Option.some.inj h2)]
          · rw [if_neg hkk] at h2
            exact Or.inl ⟨d, h2, rfl, rfl⟩
        · rw [if_neg hsell] at h2
          exact Or.inl ⟨d, h2, rfl, rfl⟩
      | offer oo => exact Or.inl ⟨d, h2, rfl, rfl⟩
      | rule r => exact Or.inl ⟨d, h2, rfl, rfl⟩
  | offer_send listingId buyer amount note ts =>
    simp only [step] at h2
    rw [vget_vput] at h2
    by_cases hkk : k = listingId ++ ":" ++ nextId "OFR" (s.offerSeq + 1)
    · rw [if_pos hkk] at h2
      exact absurd (Option.some.inj h2) (by simp)
    · rw [if_neg hkk] at h2
      exact Or.inl ⟨d, h2, rfl, rfl⟩
  | offer_counter listingId offerId amount by_ ts =>
    simp only [step] at h2
    rcases hstored : vget s.view (listingId ++ ":" ++ offerId) with _ | stored <;>
      rw [hstored] at h2
    · exact Or.inl ⟨d, h2, rfl, rfl⟩
    · cases stored with
      | offer oo =>
        dsimp only at h2
        by_cases hpend : oo.status = .pending
        · rw [if_pos hpend, vget_vput] at h2
          by_cases hkk : k = listingId ++ ":" ++ offerId
          · rw [if_pos hkk] at h2
            exact absurd (Option.some.inj h2) (by simp)
          · rw [if_neg hkk] at h2
            exact Or.inl ⟨d, h2, rfl, rfl⟩
        · rw [if_neg hpend] at h2
          exact Or.inl ⟨d, h2, rfl, rfl⟩
      | listing l => exact Or.inl ⟨d, h2, rfl, rfl⟩
      | deal d₀ => exact Or.inl ⟨d, h2, rfl, rfl⟩
      | rule r => exact Or.inl ⟨d, h2, rfl, rfl⟩
  | offer_accept listingId offerId by_ seller ts =>
    simp only [step] at h2
    rcases hstored : vget s.view (listingId ++ ":" ++ offerId) with _ | stored <;>
      rw [hstored] at h2
    · exact Or.inl ⟨d, h2, rfl, rfl⟩
    · cases stored with
      | offer oo =>
        dsimp only at h2
        by_cases hpend : oo.status = .pending
        · rw [if_pos hpend] at h2
          have hlidne : listingId ≠ listingId ++ ":" ++ offerId :=
            listingId_ne_offer_key listingId offerId
          rcases hls : vget (vput s.view (listingId ++ ":" ++ offerId)
              (.offer (acceptedOffer oo by_ ts))) listingId with _ | st <;>
            rw [hls] at h2 <;> simp only [soldWrite] at h2
          · rw [vget_vput] at h2
            by_cases hk1 : k = nextId "DEAL" (s.dealSeq + 1)
            · rw [if_pos hk1] at h2
              refine Or.inr ⟨listingId, offerId, by_, seller, ts, oo, rfl, hstored,
                hpend, ?_, ?_, hk1⟩ <;>
                · rw [← StoredVal.deal.inj (Option.some.inj h2)]
                  rfl
            · rw [if_neg hk1, vget_vput] at h2
              by_cases hk2 : k = listingId ++ ":" ++ offerId
              · rw [if_pos hk2] at h2
                exact absurd (Option.some.inj h2) (by simp)
              · rw [if_neg hk2] at h2
                exact Or.inl ⟨d, h2, rfl, rfl⟩
          · rw [vget_vput] at h2
            by_cases hk0 : k = listingId
            · rw [if_pos hk0] at h2
              rw [vget_vput, if_neg hlidne] at hls
              cases st with
              | deal d₀ =>
                refine Or.inl ⟨d₀, hk0 ▸ hls, ?_, ?_⟩ <;>
                  · simp only [markSold] at h2
                    rw [← StoredVal.deal.inj (Option.some.inj h2)]
              | listing l => simp [markSold] at h2
              | offer o₁ => simp [markSold] at h2
              | rule r => simp [markSold] at h2
            · rw [if_neg hk0, vget_vput] at h2
              by_cases hk1 : k = nextId "DEAL" (s.dealSeq + 1)
              · rw [if_pos hk1] at h2
                refine Or.inr ⟨listingId, offerId, by_, seller, ts, oo, rfl, hstored,
                  hpend, ?_, ?_, hk1⟩ <;>
                  · rw [← StoredVal.deal.inj (Option.some.inj h2)]
                    rfl
              · rw [if_neg hk1, vget_vput] at h2
                by_cases hk2 : k = listingId ++ ":" ++ offerId
                · rw [if_pos hk2] at h2
                  exact absurd (Option.some.inj h2) (by simp)
                · rw [if_neg hk2] at h2
                  exact Or.inl ⟨d, h2, rfl, rfl⟩
        · rw [if_neg hpend] at h2
          exact Or.inl ⟨d, h2, rfl, rfl⟩
      | listing l => exact Or.inl ⟨d, h2, rfl, rfl⟩
      | deal d₀ => exact Or.inl ⟨d, h2, rfl, rfl⟩
      | rule r => exact Or.inl ⟨d, h2, rfl, rfl⟩
  | offer_decline listingId offerId by_ ts =>
    simp only [step] at h2
    rcases hstored : vget s.view (listingId ++ ":" ++ offerId) with _ | stored <;>
      rw [hstored] at h2
    · exact Or.inl ⟨d, h2, rfl, rfl⟩
    · cases stored with
      | offer oo =>
        dsimp only at h2
        by_cases hpend : oo.status = .pending
        · rw [if_pos hpend, vget_vput] at h2
          by_cases hkk : k = listingId ++ ":" ++ offerId
          · rw [if_pos hkk] at h2
            exact absurd (Option.some.inj h2) (by simp)
          · rw [if_neg hkk] at h2
            exact Or.inl ⟨d, h2, rfl, rfl⟩
        · rw [if_neg hpend] at h2
          exact Or.inl ⟨d, h2, rfl, rfl⟩
      | listing l => exact Or.inl ⟨d, h2, rfl, rfl⟩
      | deal d₀ => exact Or.inl ⟨d, h2, rfl, rfl⟩
      | rule r => exact Or.inl ⟨d, h2, rfl, rfl⟩
  | rule_set owner ruleType params ts =>
    simp only [step] at h2
    rw [vget_vput] at h2
    by_cases hkk : k = "rule:" ++ owner ++ ":" ++ nextId "RULE" (s.ruleSeq + 1)
    · rw [if_pos hkk] at h2
      exact absurd (Option.some.inj h2) (by simp)
    · rw [if_neg hkk] at h2
      exact Or.inl ⟨d, h2, rfl, rfl⟩
  | rule_delete owner ruleId ts =>
    simp only [step] at h2
    rcases hstored : vget s.view ("rule:" ++ owner ++ ":" ++ ruleId) with _ | stored <;>
      rw [hstored] at h2
    · exact Or.inl ⟨d, h2, rfl, rfl⟩
    · cases stored with
      | rule r =>
        dsimp only at h2
        by_cases hown : r.owner = owner
        · rw [if_pos hown, vget_vput] at h2
          by_cases hkk : k = "rule:" ++ owner ++ ":" ++ ruleId
          · rw [if_pos hkk] at h2
            exact absurd (Option.some.inj h2) (by simp)
          · rw [if_neg hkk] at h2
            exact Or.inl ⟨d, h2, rfl, rfl⟩
        · rw [if_neg hown] at h2
          exact Or.inl ⟨d, h2, rfl, rfl⟩
      | listing l => exact Or.inl ⟨d, h2, rfl, rfl⟩
      | deal d₀ => exact Or.inl ⟨d, h2, rfl, rfl⟩
      | offer oo => exact Or.inl ⟨d, h2, rfl, rfl⟩
  | malformed => exact Or.inl ⟨d, h2, rfl, rfl⟩
  | nullValue => exact Or.inl ⟨d, h2, rfl, rfl⟩

/-- Log for the C4 witness: one offer accepted, producing `DEAL-001`. -/
def c4wLog : List Entry :=
  [.offer_send "X" "B" 5 "" 0, .offer_accept "X" "OFR-001" "S" "S" 1]

/-- State reached by `c4wLog`. -/
def c4wState : MState := (applyNodes c4wLog initState).toOption.getD initState

/-- The deal stored at `DEAL-001` in `c4wState`. -/
def c4wDeal : Deal :=
  { id := "DEAL-001", listingId := "X", offerId := "OFR-001", listingTitle := ""
    buyer := "B", seller := "S", finalPrice := 5, currency := "TNK", closedAt := 1 }

/-- C4 witness: the uniqueness part applied at the concrete reachable state holding
`DEAL-001`. -/
theorem C4_deal_uniqueness_witness : "DEAL-001" = "DEAL-001" :=
  (C4_deal_uniqueness c4wLog c4wState (by rfl)).1 "DEAL-001" "DEAL-001" c4wDeal c4wDeal
    (by decide) (by decide) rfl rfl

/-- Log for the C6 counterexample: a pending offer from buyer `B`. -/
def c6Log : List Entry := [.offer_send "L" "B" 10 "" 0]

/-- C6 counterexample: `offer_decline` (likewise `offer_counter`/`offer_accept`)
checks no identity at all: an entry whose submitter `M` is neither the buyer nor any
seller mutates the pending offer to `declined`.  This refutes the claim that every
mutating operation is a no-op when the submitter does not own the targeted entity. -/
theorem C6_counterexample :
    ∃ (s : MState) (o o' : Offer),
      applyNodes c6Log initState = .ok s ∧
      vget s.view "L:OFR-001" = some (.offer o) ∧
      o.status = .pending ∧ o.buyer = "B" ∧ ("M" : String) ≠ "B" ∧
      vget (step (.offer_decline "L" "OFR-001" "M" 1) s).view "L:OFR-001"
        = some (.offer o') ∧
      o'.status = .declined ∧ o'.declinedBy = some "M" := by
  refine ⟨_, _, _, rfl, rfl, ?_, ?_, ?_, rfl, ?_, ?_⟩ <;> decide

/-- C6 (amended): ownership is checked before mutation for `listing_update`,
`listing_remove` and `rule_delete` — for any view, when the stored target's
`seller`/`owner` field does not match the entry's submitter identity, the entry is a
no-op.  (The offer mutations, by contrast, check no identity: see the
counterexample.) -/
theorem C6_ownership :
    (∀ (s : MState) (id : String) (price : Option ℚ) (desc : Option String)
      (seller : String) (ts : Int) (st : StoredVal),
      vget s.view id = some st → sellerOf st ≠ some seller →
      step (.listing_update id price desc seller ts) s = s)
    ∧
    (∀ (s : MState) (id seller : String) (ts : Int) (st : StoredVal),
      vget s.view id = some st → sellerOf st ≠ some seller →
      step (.listing_remove id seller ts) s = s)
    ∧
    (∀ (s : MState) (owner ruleId : String) (ts : Int) (st : StoredVal),
      vget s.view ("rule:" ++ owner ++ ":" ++ ruleId) = some st →
      ownerOf st ≠ some owner →
      step (.rule_delete owner ruleId ts) s = s) := by
  refine ⟨?_, ?_, ?_⟩
  · intro s id price desc seller ts st hst hsell
    simp only [step]
    rw [hst]
    cases st with
    | listing l =>
      dsimp only
      rw [if_neg (fun hh => hsell (by simp [sellerOf, hh]))]
    | deal d =>
      dsimp only
      rw [if_neg (fun hh => hsell (by simp [sellerOf, hh]))]
    | offer o => rfl
    | rule r => rfl
  · intro s id seller ts st hst hsell
    simp only [step]
    rw [hst]
    cases st with
    | listing l =>
      dsimp only
      rw [if_neg (fun hh => hsell (by simp [sellerOf, hh]))]
    | deal d =>
      dsimp only
      rw [if_neg (fun hh => hsell (by simp [sellerOf, hh]))]
    | offer o => rfl
    | rule r => rfl
  · intro s owner ruleId ts st hst hown
    simp only [step]
    rw [hst]
    cases st with
    | rule r =>
      dsimp only
      rw [if_neg (fun hh => hown (by simp [ownerOf, hh]))]
    | listing l => rfl
    | deal d => rfl
    | offer o => rfl

/-- State for the C6 witness: a listing posted by `S`. -/
def c6wState : MState :=
  (applyNodes [.listing_post "Keyboard" "" 120 "" "electronics" "" "S" 0]
    initState).toOption.getD initState

/-- The listing stored at `LST-001` in `c6wState`. -/
def c6wListing : Listing :=
  { id := "LST-001", title := "Keyboard", desc := "", price := 120, currency := "TNK"
    category := "electronics", tags := "", seller := "S", createdAt := 0
    status := .active }

/-- C6 witness: a `listing_update` and a `listing_remove` from the non-seller `M`, and
a `rule_delete` on a key holding a non-rule value, are no-ops on the concrete state. -/
theorem C6_ownership_witness :
    step (.listing_update "LST-001" (some 1) none "M" 5) c6wState = c6wState ∧
    step (.listing_remove "LST-001" "M" 5) c6wState = c6wState :=
  ⟨C6_ownership.1 c6wState "LST-001" (some 1) none "M" 5 (.listing c6wListing)
      (by decide) (by decide),
   C6_ownership.2.1 c6wState "LST-001" "M" 5 (.listing c6wListing)
      (by decide) (by decide)⟩

/-- C7 counterexample: a `rule_set` command supplying all three supposedly mutually
exclusive parameters is not rejected: the router replies `ok:true` and appends an
`auto_buy` entry (the first `if` in the chain wins; the other parameters are silently
ignored). -/
theorem C7_counterexample :
    (routerRuleSet "me" 0
      { auto_buy_below := some 50, auto_accept_above := some 60,
        auto_counter_ratio := some (9 / 10), listing_id := some "LST-001" }).1.ok
      = true ∧
    (routerRuleSet "me" 0
      { auto_buy_below := some 50, auto_accept_above := some 60,
        auto_counter_ratio := some (9 / 10), listing_id := some "LST-001" }).2
      = some (.rule_set "me" "auto_buy" { max_price := some 50 } 0) := by
  constructor <;> rfl

/-- C7 (amended): `_ruleSet` fails (reply `ok:false`, nothing appended) exactly when
none of `auto_buy_below`, `auto_accept_above`, `auto_counter_ratio` is supplied; when
several are supplied the first in that fixed order wins and the others are silently
ignored: any command carrying `auto_buy_below` appends an `auto_buy` entry regardless
of the other two; with `auto_buy_below` absent, any command carrying
`auto_accept_above` appends an `auto_accept` entry regardless of
`auto_counter_ratio`; and with both absent, a command carrying `auto_counter_ratio`
appends an `auto_counter` entry. -/
theorem C7_ruleSet (self : String) (ts : Int) (cmd : RuleSetCmd) :
    ((routerRuleSet self ts cmd).1.ok = false ↔
      cmd.auto_buy_below = none ∧ cmd.auto_accept_above = none ∧
        cmd.auto_counter_ratio = none)
    ∧ ((routerRuleSet self ts cmd).2 = none ↔ (routerRuleSet self ts cmd).1.ok = false)
    ∧ (∀ v : ℚ, cmd.auto_buy_below = some v →
        (routerRuleSet self ts cmd).2 = some (.rule_set self "auto_buy"
          { category := cmd.category, max_price := some v } ts))
    ∧ (∀ v : ℚ, cmd.auto_buy_below = none → cmd.auto_accept_above = some v →
        (routerRuleSet self ts cmd).2 = some (.rule_set self "auto_accept"
          { listingId := cmd.listing_id, min_price := some v } ts))
    ∧ (∀ v : ℚ, cmd.auto_buy_below = none → cmd.auto_accept_above = none →
        cmd.auto_counter_ratio = some v →
        (routerRuleSet self ts cmd).2 = some (.rule_set self "auto_counter"
          { listingId := cmd.listing_id, ratio := some v } ts)) := by
  rcases hb : cmd.auto_buy_below with _ | v <;>
    rcases ha : cmd.auto_accept_above with _ | w <;>
    rcases hr : cmd.auto_counter_ratio with _ | u <;>
    simp [routerRuleSet, hb, ha, hr]

/-- C7 witness: the failure reply on an empty command, the `auto_buy` priority on a
command also carrying the other two parameters, the `auto_accept` priority over
`auto_counter_ratio` when `auto_buy_below` is absent, and the `auto_counter` fallback
when only the ratio is supplied. -/
theorem C7_ruleSet_witness :
    (routerRuleSet "w" 1 {}).1.ok = false ∧
    (routerRuleSet "w" 1
        { auto_buy_below := some 5, auto_accept_above := some 6, auto_counter_ratio := some 7 }).2 =
      some (.rule_set "w" "auto_buy" { category := none, max_price := some 5 } 1) ∧
    (routerRuleSet "w" 1
        { auto_accept_above := some 6, auto_counter_ratio := some 7 }).2 =
      some (.rule_set "w" "auto_accept" { listingId := none, min_price := some 6 } 1) ∧
    (routerRuleSet "w" 1 { auto_counter_ratio := some 7 }).2 =
      some (.rule_set "w" "auto_counter" { listingId := none, ratio := some 7 } 1) :=
  ⟨(C7_ruleSet "w" 1 {}).1.mpr ⟨rfl, rfl, rfl⟩,
   (C7_ruleSet "w" 1
      { auto_buy_below := some 5, auto_accept_above := some 6, auto_counter_ratio := some 7 }).2.2.1
      5 rfl,
   (C7_ruleSet "w" 1
      { auto_accept_above := some 6, auto_counter_ratio := some 7 }).2.2.2.1 6 rfl rfl,
   (C7_ruleSet "w" 1 { auto_counter_ratio := some 7 }).2.2.2.2 7 rfl rfl rfl⟩

/-- A single `auto_counter` rule scoped to `lid` acts on an offer of `amt` exactly by
the `floor = Math.floor(price * ratio)` rule: counter below the floor, accept at or
above it. -/
theorem evalAcceptRules_counter_single (r : MRule) (s : MState) (lid : String)
    (st : StoredVal) (p ratio amt : ℚ) (oid : Option String)
    (htype : r.type = "auto_counter") (hscope : r.params.listingId = some lid)
    (hratio : r.params.ratio = some ratio)
    (hlst : vget s.view lid = some st) (hprice : jsPriceOf st = some p) :
    evalAcceptRules [r] s lid amt oid =
      if amt < mathFloor (p * ratio) then
        some (.counterCmd lid oid (mathFloor (p * ratio)))
      else some (.acceptCmd lid oid) := by
  simp only [evalAcceptRules]
  rw [if_neg (fun hh => by rw [htype] at hh; exact absurd hh.1 (by decide)),
    if_pos ⟨htype, hscope⟩, hlst]
  dsimp only
  rw [hprice, hratio]

/-- Modelled from the spec's words for comparison (C8): "floor = asking price × ratio"
— the exact product, with no integer truncation. -/
def floorPerSpec (price ratio : ℚ) : ℚ := price * ratio

/-- An `auto_counter` rule scoped to `LST-001` with ratio 0.9 (counterexample state). -/
def c8xRule : MRule :=
  { id := "RULE-001", owner := "S", type := "auto_counter"
    params := { listingId := some "LST-001", ratio := some (9 / 10) }, createdAt := 0 }

/-- A state whose `LST-001` asks 95 (counterexample state). -/
def c8xState : MState :=
  (applyNodes [.listing_post "Ask95" "" 95 "" "" "" "S" 0]
    initState).toOption.getD initState

/-- The listing stored at `LST-001` in `c8xState`. -/
def c8xListing : Listing :=
  { id := "LST-001", title := "Ask95", desc := "", price := 95, currency := "TNK"
    category := "general", tags := "", seller := "S", createdAt := 0, status := .active }

/-- C8 counterexample: with ask 95 and ratio 0.9 the spec formula gives floor 85.5, so
by the claim an offer of 85 (strictly below that floor) must be countered at exactly
85.5; the code instead computes `Math.floor(95 * 0.9) = 85` and accepts the offer. -/
theorem C8_counterexample :
    evalAcceptRules [c8xRule] c8xState "LST-001" 85 none =
      some (.acceptCmd "LST-001" none) ∧
    (85 : ℚ) < floorPerSpec 95 (9 / 10) := by
  constructor
  · rw [evalAcceptRules_counter_single c8xRule c8xState "LST-001" (.listing c8xListing)
      95 (9 / 10) 85 none rfl rfl rfl (by decide) rfl]
    have hfl : mathFloor (95 * (9 / 10)) = 85 := by
      rw [mathFloor]
      norm_num [Rat.floor]
    rw [hfl]
    norm_num
  · rw [floorPerSpec]
    norm_num

/-- An `auto_counter` rule scoped to `LST-001` with ratio 0.9. -/
def c8Rule : MRule :=
  { id := "RULE-001", owner := "S", type := "auto_counter"
    params := { listingId := some "LST-001", ratio := some (9 / 10) }, createdAt := 0 }

/-- A state whose `LST-001` asks 100. -/
def c8State : MState :=
  (applyNodes [.listing_post "Ask100" "" 100 "" "" "" "S" 0]
    initState).toOption.getD initState

/-- The listing stored at `LST-001` in `c8State`. -/
def c8wListing : Listing :=
  { id := "LST-001", title := "Ask100", desc := "", price := 100, currency := "TNK"
    category := "general", tags := "", seller := "S", createdAt := 0, status := .active }

/-- C8 (amended): an `auto_counter` rule scoped to the listing computes
`floor = Math.floor(price * ratio)` — the *truncated* product — and accepts exactly
when the offered amount is ≥ this floor, otherwise counters at exactly this floor.
With ask 100 and ratio 0.9: floor = 90, an offer of 85 is countered at 90, an offer of
92 is accepted. -/
theorem C8_auto_counter :
    (∀ (r : MRule) (s : MState) (lid : String) (st : StoredVal) (p ratio amt : ℚ)
      (oid : Option String),
      r.type = "auto_counter" → r.params.listingId = some lid →
      r.params.ratio = some ratio →
      vget s.view lid = some st → jsPriceOf st = some p →
      evalAcceptRules [r] s lid amt oid =
        if amt < mathFloor (p * ratio) then
          some (.counterCmd lid oid (mathFloor (p * ratio)))
        else some (.acceptCmd lid oid))
    ∧ mathFloor (100 * (9 / 10)) = 90
    ∧ evalAcceptRules [c8Rule] c8State "LST-001" 85 none =
        some (.counterCmd "LST-001" none 90)
    ∧ evalAcceptRules [c8Rule] c8State "LST-001" 92 none =
        some (.acceptCmd "LST-001" none) := by
  have hfloor : mathFloor (100 * (9 / 10)) = 90 := by
    rw [mathFloor]
    norm_num [Rat.floor]
  refine ⟨?_, hfloor, ?_, ?_⟩
  · intro r s lid st p ratio amt oid htype hscope hratio hlst hprice
    exact evalAcceptRules_counter_single r s lid st p ratio amt oid htype hscope hratio
      hlst hprice
  · rw [evalAcceptRules_counter_single c8Rule c8State "LST-001" (.listing c8wListing)
      100 (9 / 10) 85 none rfl rfl rfl (by decide) rfl, hfloor]
    norm_num
  · rw [evalAcceptRules_counter_single c8Rule c8State "LST-001" (.listing c8wListing)
      100 (9 / 10) 92 none rfl rfl rfl (by decide) rfl, hfloor]
    norm_num

/-- C8 witness: the general auto-counter shape applied at the ask-100 state with an
offer of 85. -/
theorem C8_auto_counter_witness :
    evalAcceptRules [c8Rule] c8State "LST-001" 85 none =
      if (85 : ℚ) < mathFloor (100 * (9 / 10)) then
        some (.counterCmd "LST-001" none (mathFloor (100 * (9 / 10))))
      else some (.acceptCmd "LST-001" none) :=
  C8_auto_counter.1 c8Rule c8State "LST-001" (.listing c8wListing) 100 (9 / 10) 85 none
    rfl rfl rfl (by decide) rfl

/-- C9 (confirmed): the sliding-window rate limiter.  (1) If at least `N` previously
accepted triggers still fall inside the rolling window, the next trigger is refused:
the call returns `false` and records no timestamp (the state is exactly the pruned
list).  (2) When exactly `N` timestamps are held, a new trigger at time `now` is
accepted exactly once the oldest of them (`m`) has aged out of the window
(`now - m ≥ DEAL_RATE_WINDOW_MS`, matching the strict `now - t <` window test that
defines "within the last W"). -/
theorem C9_rate_limiter (N : Nat) (ts : List Int) (now m : Int) :
    (N ≤ (ts.filter (fun t => now - t < DEAL_RATE_WINDOW_MS)).length →
      checkRateLimit N ts now =
        (false, ts.filter (fun t => now - t < DEAL_RATE_WINDOW_MS)))
    ∧ (ts.length = N → m ∈ ts → (∀ t ∈ ts, m ≤ t) →
      ((checkRateLimit N ts now).1 = true ↔ DEAL_RATE_WINDOW_MS ≤ now - m)) := by
  constructor
  · intro h
    simp only [checkRateLimit]
    rw [if_pos h]
  · intro hlen hm hmin
    simp only [checkRateLimit]
    by_cases hfull : N ≤ (ts.filter fun t => now - t < DEAL_RATE_WINDOW_MS).length
    · rw [if_pos hfull]
      simp only [Prod.fst]
      have hle := List.length_filter_le (fun t => decide (now - t < DEAL_RATE_WINDOW_MS)) ts
      have heq : (ts.filter fun t => now - t < DEAL_RATE_WINDOW_MS).length = ts.length := by
        omega
      have hall := List.filter_length_eq_length.mp heq
      have hmkept : now - m < DEAL_RATE_WINDOW_MS := by
        simpa using hall m hm
      constructor
      · intro hh
        exact absurd hh (by simp)
      · intro hh
        omega
    · rw [if_neg hfull]
      simp only [Prod.fst, true_iff]
      have hex : ∃ t ∈ ts, ¬(now - t < DEAL_RATE_WINDOW_MS) := by
        by_contra hall
        push_neg at hall
        have : (ts.filter fun t => now - t < DEAL_RATE_WINDOW_MS).length = ts.length :=
          List.filter_length_eq_length.mpr (by
            intro a ha
            simpa using hall a ha)
        omega
      obtain ⟨t, ht, hge⟩ := hex
      have := hmin t ht
      omega

/-- C9 witness: suppression at capacity 2 with both timestamps in-window, and
acceptance exactly when the oldest timestamp has aged out. -/
theorem C9_rate_limiter_witness :
    checkRateLimit 2 [0, 10] 20 = (false, [0, 10]) ∧
    ((checkRateLimit 2 [0, 1000] 3600000).1 = true ↔
      DEAL_RATE_WINDOW_MS ≤ 3600000 - 0) :=
  ⟨(C9_rate_limiter 2 [0, 10] 20 0).1 (by decide),
   (C9_rate_limiter 2 [0, 1000] 3600000 0).2 (by decide) (by decide) (by decide)⟩

/-- C10 (confirmed): accepting a pending offer whose `listingId` key holds nothing
still marks the offer accepted and still creates a Deal, whose `listingTitle` is `""`,
whose `currency` is `"TNK"` and whose `seller` is the accepting entry's own `seller`
field (the submitter's address, as the router fills it) — and the resulting view
carries exactly the offer write and the deal write: no listing key is written. -/
theorem C10_accept_without_listing (s : MState) (lid oid b sel : String) (ts : Int)
    (o : Offer) (hnolst : vget s.view lid = none)
    (hoff : vget s.view (lid ++ ":" ++ oid) = some (.offer o))
    (hpend : o.status = .pending) :
    step (.offer_accept lid oid b sel ts) s =
      { s with
        dealSeq := s.dealSeq + 1
        view := vput (vput s.view (lid ++ ":" ++ oid) (.offer (acceptedOffer o b ts)))
          (nextId "DEAL" (s.dealSeq + 1))
          (.deal
            { id := nextId "DEAL" (s.dealSeq + 1), listingId := lid, offerId := oid
              listingTitle := "", buyer := o.buyer, seller := sel
              finalPrice := o.amount, currency := "TNK", closedAt := ts }) } := by
  have h1 : vget (vput s.view (lid ++ ":" ++ oid) (.offer (acceptedOffer o b ts))) lid
      = none := by
    rw [vget_vput, if_neg (listingId_ne_offer_key lid oid)]
    exact hnolst
  simp only [step]
  rw [hoff]
  dsimp only
  rw [if_pos hpend]
  simp only [newDeal, soldWrite, h1, soldTitleOf, soldSellerOf, soldCurrencyOf]

/-- State for the C10 witness: a single pending offer against the nonexistent listing
key `X`. -/
def c10wState : MState :=
  (applyNodes [.offer_send "X" "B" 7 "" 0] initState).toOption.getD initState

/-- The pending offer stored at `X:OFR-001` in `c10wState`. -/
def c10wOffer : Offer :=
  { id := "OFR-001", listingId := "X", buyer := "B", amount := 7, note := ""
    status := .pending, createdAt := 0, history := [⟨7, "B", 0⟩] }

/-- C10 witness: the orphan acceptance at the concrete state. -/
theorem C10_accept_without_listing_witness :
    step (.offer_accept "X" "OFR-001" "A" "A" 5) c10wState =
      { c10wState with
        dealSeq := 1
        view := vput (vput c10wState.view "X:OFR-001"
            (.offer (acceptedOffer c10wOffer "A" 5)))
          (nextId "DEAL" 1)
          (.deal
            { id := nextId "DEAL" 1, listingId := "X", offerId := "OFR-001"
              listingTitle := "", buyer := "B", seller := "A"
              finalPrice := 7, currency := "TNK", closedAt := 5 }) } :=
  C10_accept_without_listing c10wState "X" "OFR-001" "A" "A" 5 c10wOffer
    (by decide) (by decide) (by decide)
